import Mathlib

/-!
# Railway reservation system (`Aks.cpp`): a shallow embedding

The C++ program keeps a vector of confirmed passengers, a FIFO queue of waiting
passengers and a ticket counter, and stores both collections as CSV files.

Modelling conventions.

* `std::string` is a list of characters (`Str`), `std::vector` and `std::queue`
  are lists (`push_back`/`push` append at the end, `front`/`pop` take the head).
* `long long` and `int` values are mathematical integers.  The explicit casts
  `(int)confirmed.size()` and `(int)i` are modelled by `castInt`, which reduces
  modulo `2^32`.  The increments `nextTicketNo++` and `pos++` are signed
  arithmetic, whose overflow is undefined in C++; they are modelled without
  wrap-around, which is exact for every run that issues fewer than `2^63 - 1`
  tickets.
* Console input is passed as arguments (the line typed for the name, the values
  returned by `readInt`, `readGender`, `readLL`), the clock reading of
  `nowTimestamp` is an argument, and what is printed is returned as an outcome
  value.
* `std::stoll`/`std::stoi` throw on malformed input; a thrown exception is
  `none`.
-/

/-- A `std::string`, as the list of its characters. -/
abbrev Str := List Char

/-- Largest value of a C++ `int`. -/
def INT_MAX : Int := 2147483647

/-- The conversion `(int)n` of an unsigned size `n`: reduction modulo `2^32` into
the range `[-2^31, 2^31)`. -/
def castInt (n : Nat) : Int := ((n : Int) + 2147483648) % 4294967296 - 2147483648

/-- The record `struct Passenger`. -/
structure Passenger where
  ticketNo : Int
  name : Str
  age : Int
  gender : Str
  bookedAt : Str
  deriving DecidableEq, Repr

/-- A value-initialised passenger, `Passenger p{}`. -/
instance : Inhabited Passenger := ⟨⟨0, [], 0, [], []⟩⟩

/-- The data members of `class ReservationSystem`. -/
structure ReservationSystem where
  TOTAL_SEATS : Int
  confirmed : List Passenger
  waiting : List Passenger
  nextTicketNo : Int
  deriving DecidableEq, Repr

namespace ReservationSystem

/-- The characters removed by `trim`: `" \t\r\n"`. -/
def isTrimChar (c : Char) : Bool := c = ' ' || c = '\t' || c = '\r' || c = '\n'

/-- `trim`: drop the leading and the trailing characters of `" \t\r\n"`. -/
def trim (s : Str) : Str :=
  match s.dropWhile isTrimChar with
  | [] => []
  | r => (r.reverse.dropWhile isTrimChar).reverse

/-- Loop of `findConfirmedIndexByTicket`, at index `i` with `rest` still to scan. -/
def findConfirmedLoop (ticket : Int) : List Passenger → Nat → Int
  | [], _ => -1
  | p :: rest, i =>
    if p.ticketNo = ticket then castInt i else findConfirmedLoop ticket rest (i + 1)

/-- `findConfirmedIndexByTicket`: index of the first confirmed passenger with the
ticket, or `-1`. -/
def findConfirmedIndexByTicket (s : ReservationSystem) (ticket : Int) : Int :=
  findConfirmedLoop ticket s.confirmed 0

/-- Loop of `waitingPosition` over the copy `tmp` of the queue. -/
def waitingPositionLoop (ticket : Int) : List Passenger → Int → Int
  | [], _ => -1
  | p :: tmp, pos =>
    if p.ticketNo = ticket then pos else waitingPositionLoop ticket tmp (pos + 1)

/-- `waitingPosition`: 1-based position of the ticket in the queue, or `-1`. -/
def waitingPosition (s : ReservationSystem) (ticket : Int) : Int :=
  waitingPositionLoop ticket s.waiting 1

/-- Loop of `removeFromWaiting`: `w` is what is left of `waiting`, `tmp` the queue
being rebuilt, `removed` the flag. -/
def removeFromWaitingLoop (ticket : Int) :
    List Passenger → List Passenger → Bool → List Passenger × Bool
  | [], tmp, removed => (tmp, removed)
  | p :: w, tmp, removed =>
    if p.ticketNo = ticket then removeFromWaitingLoop ticket w tmp true
    else removeFromWaitingLoop ticket w (tmp ++ [p]) removed

/-- `removeFromWaiting`: the new state and the returned flag. -/
def removeFromWaiting (s : ReservationSystem) (ticket : Int) : ReservationSystem × Bool :=
  let r := removeFromWaitingLoop ticket s.waiting [] false
  ({ s with waiting := r.1 }, r.2)

end ReservationSystem

/-- What `bookSeatInteractive` prints. -/
inductive BookOutcome where
  /-- "Name cannot be empty. Booking cancelled." -/
  | nameEmpty
  /-- "Seat confirmed! Ticket No: ..." -/
  | seatConfirmed (ticket : Int)
  /-- "No seats available. Added to waiting list. Ticket No: ... | Position: ..." -/
  | waitlisted (ticket : Int) (position : Int)
  deriving DecidableEq, Repr

/-- What `cancelBookingInteractive` prints. -/
inductive CancelOutcome where
  /-- "Cancelled ticket ... (...)", then "Promoted from waiting: Ticket ..." if a
  passenger was promoted. -/
  | cancelledConfirmed (ticket : Int) (name : Str) (promoted : Option Int)
  /-- "Removed from waiting list: Ticket ..." -/
  | removedFromWaiting (ticket : Int)
  /-- "Ticket not found." -/
  | notFound
  deriving DecidableEq, Repr

namespace ReservationSystem

/-- `bookSeatInteractive`. `nameLine` is the line read for the name, `age` and
`gender` the values returned by `readInt` and `readGender`, `now` the value of
`nowTimestamp()`. -/
def bookSeatInteractive (s : ReservationSystem) (nameLine : Str) (age : Int) (gender : Str)
    (now : Str) : ReservationSystem × BookOutcome :=
  let name := trim nameLine
  if name = [] then (s, BookOutcome.nameEmpty)
  else
    let p : Passenger :=
      { ticketNo := s.nextTicketNo, name := name, age := age, gender := gender, bookedAt := now }
    let s1 : ReservationSystem := { s with nextTicketNo := s.nextTicketNo + 1 }
    if castInt s1.confirmed.length < s1.TOTAL_SEATS then
      ({ s1 with confirmed := s1.confirmed ++ [p] }, BookOutcome.seatConfirmed p.ticketNo)
    else
      let s2 : ReservationSystem := { s1 with waiting := s1.waiting ++ [p] }
      (s2, BookOutcome.waitlisted p.ticketNo (waitingPosition s2 p.ticketNo))

/-- `cancelBookingInteractive`. `t` is the value returned by `readLL`, `now` the
value `nowTimestamp()` would return.  An index `idx < -1` (possible only with more
than `INT_MAX` confirmed passengers) makes the source index before the vector; the
model then takes index `0`. -/
def cancelBookingInteractive (s : ReservationSystem) (t : Int) (now : Str) :
    ReservationSystem × CancelOutcome :=
  let idx := findConfirmedIndexByTicket s t
  if idx ≠ -1 then
    let removed := s.confirmed.getD idx.toNat default
    let s1 : ReservationSystem := { s with confirmed := s.confirmed.eraseIdx idx.toNat }
    match s1.waiting with
    | promote :: rest =>
      let promote1 : Passenger := { promote with bookedAt := now }
      ({ s1 with waiting := rest, confirmed := s1.confirmed ++ [promote1] },
        CancelOutcome.cancelledConfirmed removed.ticketNo removed.name (some promote1.ticketNo))
    | [] => (s1, CancelOutcome.cancelledConfirmed removed.ticketNo removed.name none)
  else
    let r := removeFromWaiting s t
    if r.2 then (r.1, CancelOutcome.removedFromWaiting t)
    else (r.1, CancelOutcome.notFound)

end ReservationSystem

/-! ## CSV encoding of a passenger -/

/-- Smallest value of a C++ `int`. -/
def INT_MIN : Int := -2147483648

/-- Largest value of a C++ `long long`. -/
def LLONG_MAX : Int := 9223372036854775807

/-- Smallest value of a C++ `long long`. -/
def LLONG_MIN : Int := -9223372036854775808

/-- The decimal digit character of `d < 10`. -/
def digitChar (d : Nat) : Char := Char.ofNat (48 + d)

/-- Decimal digits of `n`, most significant first; `fuel` bounds the number of
digits (any `fuel > n` is enough). -/
def natDigits : Nat → Nat → Str
  | 0, _ => []
  | fuel + 1, n =>
    if n < 10 then [digitChar n] else natDigits fuel (n / 10) ++ [digitChar (n % 10)]

/-- `std::to_string` on a signed integer: decimal digits, with a leading `-` for a
negative value. -/
def to_string (n : Int) : Str :=
  if n < 0 then '-' :: natDigits (n.natAbs + 1) n.natAbs else natDigits (n.natAbs + 1) n.natAbs

/-- The C locale's `isspace`, which `strtol`/`strtoll` use to skip leading blanks. -/
def isSpace (c : Char) : Bool :=
  c = ' ' || c = '\t' || c = '\n' || c = '\x0b' || c = '\x0c' || c = '\r'

/-- Value of a run of decimal digits, most significant first. -/
def digitsValue (ds : Str) : Nat := ds.foldl (fun acc c => acc * 10 + (c.toNat - 48)) 0

/-- The optional sign `strtol`/`strtoll` read: whether it is a minus, and the text
after it. -/
def readSign : Str → Bool × Str
  | '-' :: r => (true, r)
  | '+' :: r => (false, r)
  | r => (false, r)

/-- The number `strtol`/`strtoll` read in base 10: leading blanks are skipped, an
optional sign is read, then the longest run of digits; `none` when there is no
digit (`std::invalid_argument`). What follows the digits is ignored. -/
def parseInteger (s : Str) : Option Int :=
  let body : Bool × Str := readSign (s.dropWhile isSpace)
  let ds := body.2.takeWhile Char.isDigit
  if ds = [] then none
  else some (if body.1 then -(digitsValue ds : Int) else (digitsValue ds : Int))

/-- `std::stoll`: `none` when it throws (`invalid_argument` or `out_of_range`). -/
def stoll (s : Str) : Option Int :=
  match parseInteger s with
  | none => none
  | some v => if LLONG_MIN ≤ v ∧ v ≤ LLONG_MAX then some v else none

/-- `std::stoi`: `none` when it throws (`invalid_argument` or `out_of_range`). -/
def stoi (s : Str) : Option Int :=
  match parseInteger s with
  | none => none
  | some v => if INT_MIN ≤ v ∧ v ≤ INT_MAX then some v else none

namespace Passenger

/-- The loop of `esc` that inserts a `"` before every `"`. -/
def doubleQuotes : Str → Str
  | [] => []
  | c :: r => if c = '"' then '"' :: '"' :: doubleQuotes r else c :: doubleQuotes r

/-- The lambda `esc` of `toCSV`. -/
def esc (s : Str) : Str :=
  let needQuote : Bool := decide (',' ∈ s) || decide ('"' ∈ s)
  let r := doubleQuotes s
  if needQuote then '"' :: (r ++ ['"']) else r

/-- `Passenger::toCSV`. -/
def toCSV (p : Passenger) : Str :=
  to_string p.ticketNo ++ [','] ++ esc p.name ++ [','] ++ to_string p.age ++ [','] ++
    esc p.gender ++ [','] ++ esc p.bookedAt

/-- The scanning loop of `fromCSV` together with the final `fields.push_back(cur)`:
the first argument is the rest of the line from index `i` on. -/
def splitFields : Str → List Str → Str → Bool → List Str
  | [], fields, cur, _ => fields ++ [cur]
  | c :: rest, fields, cur, inQuotes =>
    if c = '"' then
      match rest with
      | d :: rest1 =>
        if inQuotes ∧ d = '"' then splitFields rest1 fields (cur ++ ['"']) inQuotes
        else splitFields (d :: rest1) fields cur (!inQuotes)
      | [] => splitFields [] fields cur (!inQuotes)
    else if c = ',' ∧ inQuotes = false then splitFields rest (fields ++ [cur]) [] inQuotes
    else splitFields rest fields (cur ++ [c]) inQuotes

/-- `Passenger::fromCSV`; `none` when `stoll` or `stoi` throws. -/
def fromCSV (line : Str) : Option Passenger :=
  let fields := splitFields line [] [] false
  let p0 : Passenger := default
  (if 1 ≤ fields.length then
      (stoll (fields.getD 0 [])).map (fun v => { p0 with ticketNo := v })
    else some p0).bind fun p1 =>
  let p2 : Passenger := if 2 ≤ fields.length then { p1 with name := fields.getD 1 [] } else p1
  (if 3 ≤ fields.length then
      (stoi (fields.getD 2 [])).map (fun v => { p2 with age := v })
    else some p2).bind fun p3 =>
  let p4 : Passenger := if 4 ≤ fields.length then { p3 with gender := fields.getD 3 [] } else p3
  let p5 : Passenger := if 5 ≤ fields.length then { p4 with bookedAt := fields.getD 4 [] } else p4
  some p5

end Passenger

/-! ## Persistence -/

/-- The lines `std::getline` delivers from a stream with the given content until
it fails; `cur` is the part of the current line already read. A last line without a
line feed is delivered when it is not empty. -/
def getlines : Str → Str → List Str
  | [], cur => if cur = [] then [] else [cur]
  | c :: rest, cur => if c = '\n' then cur :: getlines rest [] else getlines rest (cur ++ [c])

namespace ReservationSystem

/-- The loop `while (getline(fin, line)) if (!line.empty()) v.push_back(fromCSV(line))`
over the lines of a file; `none` when `fromCSV` throws. -/
def loadLoop : List Str → List Passenger → Option (List Passenger)
  | [], acc => some acc
  | line :: rest, acc =>
    if line ≠ [] then
      match Passenger.fromCSV line with
      | none => none
      | some p => loadLoop rest (acc ++ [p])
    else loadLoop rest acc

/-- `loadData`. A file is `none` when it cannot be opened, else its content.
The result is `none` when an exception leaves `loadData`. -/
def loadData (s : ReservationSystem) (confFile waitFile : Option Str) :
    Option ReservationSystem :=
  (match confFile with
    | some content => loadLoop (getlines content []) s.confirmed
    | none => some s.confirmed).bind fun conf =>
  (match waitFile with
    | some content => loadLoop (getlines content []) s.waiting
    | none => some s.waiting).bind fun wait =>
  some { s with confirmed := conf, waiting := wait }

/-- The text written for a collection: one `toCSV` line per passenger. -/
def writeLines : List Passenger → Str
  | [] => []
  | p :: rest => p.toCSV ++ ['\n'] ++ writeLines rest

/-- `saveData`: the new contents of `confirmed.csv` and `waiting.csv`. -/
def saveData (s : ReservationSystem) : Str × Str :=
  (writeLines s.confirmed, writeLines s.waiting)

/-- The state set up by the member initialisers, before the constructor body. -/
def init (capacity : Int) : ReservationSystem :=
  { TOTAL_SEATS := capacity, confirmed := [], waiting := [], nextTicketNo := 1 }

/-- The constructor `ReservationSystem(int capacity)`, given the two files. -/
def create (capacity : Int) (confFile waitFile : Option Str) : Option ReservationSystem :=
  loadData (init capacity) confFile waitFile

end ReservationSystem

/-! ## Runs of the console loop -/

/-- One mutating menu action together with the console input it reads and the
clock reading it would use. -/
inductive Op where
  | book (nameLine : Str) (age : Int) (gender : Str) (now : Str)
  | cancel (t : Int) (now : Str)
  deriving DecidableEq, Repr

namespace ReservationSystem

/-- State after one menu action. -/
def step (s : ReservationSystem) : Op → ReservationSystem
  | Op.book nameLine age gender now => (s.bookSeatInteractive nameLine age gender now).1
  | Op.cancel t now => (s.cancelBookingInteractive t now).1

/-- State after a sequence of menu actions. -/
def run (s : ReservationSystem) (ops : List Op) : ReservationSystem := ops.foldl step s

/-- The ticket a menu action issues, if it issues one. -/
def issued (s : ReservationSystem) : Op → Option Int
  | Op.book nameLine age gender now =>
    match (s.bookSeatInteractive nameLine age gender now).2 with
    | BookOutcome.nameEmpty => none
    | BookOutcome.seatConfirmed t => some t
    | BookOutcome.waitlisted t _ => some t
  | Op.cancel _ _ => none

/-- The tickets issued along a sequence of menu actions, in order. -/
def issuedTickets : ReservationSystem → List Op → List Int
  | _, [] => []
  | s, op :: ops =>
    match issued s op with
    | some t => t :: issuedTickets (step s op) ops
    | none => issuedTickets (step s op) ops

/-- The states a run from the empty ledger of capacity `c` can be in. -/
def Reachable (c : Int) (s : ReservationSystem) : Prop := ∃ ops, s = run (init c) ops

end ReservationSystem

/-! ## Sequences of bookings -/

/-- The console input of one booking and the clock reading it uses. -/
structure BookRequest where
  nameLine : Str
  age : Int
  gender : Str
  now : Str
  deriving DecidableEq, Repr

/-- The ticket number an outcome of `bookSeatInteractive` shows, if any. -/
def BookOutcome.ticket? : BookOutcome → Option Int
  | BookOutcome.nameEmpty => none
  | BookOutcome.seatConfirmed t => some t
  | BookOutcome.waitlisted t _ => some t

namespace ReservationSystem

/-- The passenger `bookSeatInteractive` builds for a request when it issues the
given ticket number. -/
def passengerOf (r : BookRequest) (ticket : Int) : Passenger :=
  { ticketNo := ticket, name := trim r.nameLine, age := r.age, gender := r.gender,
    bookedAt := r.now }

/-- Run `bookSeatInteractive` on each request in order; the final state and the
outcomes in call order. -/
def bookAll : ReservationSystem → List BookRequest → ReservationSystem × List BookOutcome
  | s, [] => (s, [])
  | s, r :: rs =>
    let b := s.bookSeatInteractive r.nameLine r.age r.gender r.now
    let rest := bookAll b.1 rs
    (rest.1, b.2 :: rest.2)

/-- The requests as passengers, the `i`-th request (1-based) holding ticket `i`. -/
def numbered (reqs : List BookRequest) : List Passenger :=
  (reqs.enumFrom 1).map (fun ir => passengerOf ir.2 (ir.1 : Int))

end ReservationSystem

namespace ReservationSystem

/-- The ticket numbers in the ledger: those of `confirmed`, then those of `waiting`. -/
def tickets (s : ReservationSystem) : List Int :=
  (s.confirmed ++ s.waiting).map Passenger.ticketNo

/-- The ticket invariant: the ticket numbers in the ledger are pairwise distinct and
all below the counter. -/
def TicketInv (s : ReservationSystem) : Prop :=
  (tickets s).Nodup ∧ ∀ t ∈ tickets s, t < s.nextTicketNo

end ReservationSystem

/-! ## Well-formed records and console input -/

/-- The numeric fields of a passenger fit their C++ types (`long long`, `int`). -/
def Passenger.InRange (p : Passenger) : Prop :=
  LLONG_MIN ≤ p.ticketNo ∧ p.ticketNo ≤ LLONG_MAX ∧ INT_MIN ≤ p.age ∧ p.age ≤ INT_MAX

/-- No text field of a passenger contains a line feed. -/
def Passenger.OneLine (p : Passenger) : Prop :=
  '\n' ∉ p.name ∧ '\n' ∉ p.gender ∧ '\n' ∉ p.bookedAt

/-- What the console readers can deliver to a menu action: the name is one line
read by `getline`, the age is an `int` returned by `readInt`, the gender is one of
the codes `readGender` accepts, and the timestamp written by `strftime` has no
line feed. -/
def Op.ConsoleInput : Op → Prop
  | Op.book nameLine age gender now =>
    '\n' ∉ nameLine ∧ INT_MIN ≤ age ∧ age ≤ INT_MAX ∧
      (gender = ['M'] ∨ gender = ['F'] ∨ gender = ['O']) ∧ '\n' ∉ now
  | Op.cancel _ now => '\n' ∉ now

/-- The record invariant of a run on console input: the counter is at least 1 and
every stored passenger has a ticket between 1 and the counter, an age that is an
`int`, and text fields without line feeds. -/
def ReservationSystem.RecordInv (s : ReservationSystem) : Prop :=
  1 ≤ s.nextTicketNo ∧
    ∀ p ∈ s.confirmed ++ s.waiting,
      1 ≤ p.ticketNo ∧ p.ticketNo < s.nextTicketNo ∧ INT_MIN ≤ p.age ∧ p.age ≤ INT_MAX ∧
        p.OneLine

/-! ## Sample data -/

instance (p : Passenger) : Decidable p.InRange := by
  unfold Passenger.InRange
  infer_instance

instance (p : Passenger) : Decidable p.OneLine := by
  unfold Passenger.OneLine
  infer_instance

instance (op : Op) : Decidable op.ConsoleInput := by
  cases op <;> unfold Op.ConsoleInput <;> infer_instance

/-- A run on console input with a name that needs quoting: three bookings at
capacity 1, then the confirmed ticket is cancelled. -/
def demoOps : List Op :=
  [Op.book [' ', 'a', ',', '"', 'b', ' '] 30 ['F'] ['t', '1'],
    Op.book ['B', 'o'] 25 ['M'] ['t', '2'],
    Op.book ['"'] (-1) ['O'] ['t', '3'],
    Op.cancel 1 ['t', '4']]

/-- A ledger of capacity 2 with two confirmed and two waiting passengers. -/
def demoLedger : ReservationSystem :=
  { TOTAL_SEATS := 2,
    confirmed := [⟨1, ['A', 'l'], 30, ['F'], ['t', '1']⟩, ⟨2, ['B', 'o'], 25, ['M'], ['t', '2']⟩],
    waiting := [⟨3, ['C', 'a'], 40, ['F'], ['t', '3']⟩, ⟨4, ['D', ','], 41, ['O'], ['t', '4']⟩],
    nextTicketNo := 5 }

/-- A ledger of capacity 2 with two confirmed passengers and nobody waiting. -/
def demoLedgerNoWait : ReservationSystem :=
  { TOTAL_SEATS := 2,
    confirmed := [⟨1, ['A', 'l'], 30, ['F'], ['t', '1']⟩, ⟨2, ['B', 'o'], 25, ['M'], ['t', '2']⟩],
    waiting := [],
    nextTicketNo := 3 }

/-! ## The record format, stated on its own

The format of the persisted streams as the specification describes it: one record
per line, the fields of a record separated by commas, a field written either as it
is (when it has no comma and no double quote) or inside double quotes with every
double quote of it doubled. These definitions do not use the scanner of `fromCSV`
or the loops of `loadData`. -/

/-- A field with every double quote written twice. -/
def quoteDoubled (f : Str) : Str :=
  (f.map (fun ch => if ch = '"' then ['"', '"'] else [ch])).flatten

/-- The text `e` is a way to write the field `f` in a record: the field itself when
it has no comma and no double quote, or the field in double quotes with its double
quotes doubled. -/
def FieldText (e f : Str) : Prop :=
  (e = f ∧ ',' ∉ f ∧ '"' ∉ f) ∨ e = '"' :: (quoteDoubled f ++ ['"'])

/-- A record line: the field texts separated by commas. -/
def joinFields : List Str → Str
  | [] => []
  | [e] => e
  | e :: e2 :: es => e ++ ',' :: joinFields (e2 :: es)

/-- The content of a stream that holds the given lines, each ended by a line feed. -/
def linesText : List Str → Str
  | [] => []
  | l :: ls => l ++ '\n' :: linesText ls

/-! ## Invariants of the seat allocation and sample files -/

namespace ReservationSystem

/-- The records the loop of `loadData` reads from a stream into an empty
collection; `none` when `fromCSV` throws on one of its lines. -/
def parseRecords (content : Str) : Option (List Passenger) :=
  loadLoop (getlines content []) []

/-- The seat invariant for capacity `c`: the capacity is `c`, `confirmed` holds at
most `c` passengers (none when `c` is negative), and somebody waits only when no
seat is free. -/
def SeatInv (c : Int) (s : ReservationSystem) : Prop :=
  s.TOTAL_SEATS = c ∧ (s.confirmed.length : Int) ≤ max c 0 ∧
    (s.waiting ≠ [] → c ≤ (s.confirmed.length : Int))

/-- The order invariant: the ticket numbers of `confirmed ++ waiting` are strictly
increasing and all below the counter. -/
def OrderInv (s : ReservationSystem) : Prop :=
  (tickets s).Pairwise (fun a b => a < b) ∧ ∀ t ∈ tickets s, t < s.nextTicketNo

end ReservationSystem

/-- A previous run at capacity 2 in which one passenger was booked. -/
def demoPreviousRun : ReservationSystem :=
  (ReservationSystem.init 2).run [Op.book ['A', 'l'] 30 ['F'] "2024-01-01 10:00:00".toList]

/-- A `confirmed.csv` as a run with one confirmed booking leaves it. -/
def demoConfirmedFile : Str := "1,Al,30,F,2024-01-01 10:00:00\n".toList

/-- A `confirmed.csv` whose first record has a ticket field that is not a number. -/
def demoBrokenFile : Str := "x,Al,30,F,t1\n2,Bo,25,M,t2\n".toList

/-- A `waiting.csv` with one record. -/
def demoWaitingFile : Str := "7,Zed,41,O,t7\n".toList

/-! ## Basic facts about the ledger operations -/

namespace ReservationSystem

theorem castInt_of_le {n : Nat} (h : (n : Int) ≤ INT_MAX) : castInt n = (n : Int) := by
  unfold castInt
  unfold INT_MAX at h
  omega

theorem findConfirmedLoop_spec (t : Int) (l : List Passenger) (i : Nat) :
    ((∀ p ∈ l, p.ticketNo ≠ t) ∧ findConfirmedLoop t l i = -1) ∨
      ∃ pre p post, l = pre ++ p :: post ∧ (∀ q ∈ pre, q.ticketNo ≠ t) ∧ p.ticketNo = t ∧
        findConfirmedLoop t l i = castInt (i + pre.length) := by
  induction l generalizing i with
  | nil => left; simp [findConfirmedLoop]
  | cons a l ih =>
    by_cases ha : a.ticketNo = t
    · right
      exact ⟨[], a, l, by simp, by simp, ha, by simp [findConfirmedLoop, ha]⟩
    · rcases ih (i + 1) with ⟨hall, hres⟩ | ⟨pre, p, post, hl, hpre, hp, hres⟩
      · left
        refine ⟨?_, by simp [findConfirmedLoop, ha, hres]⟩
        intro q hq
        rcases List.mem_cons.1 hq with rfl | hq
        · exact ha
        · exact hall q hq
      · right
        refine ⟨a :: pre, p, post, by simp [hl], ?_, hp, ?_⟩
        · intro q hq
          rcases List.mem_cons.1 hq with rfl | hq
          · exact ha
          · exact hpre q hq
        · simp only [findConfirmedLoop, ha, if_false, hres, List.length_cons]
          congr 1
          omega

theorem findConfirmedLoop_absent {t : Int} {l : List Passenger} (h : ∀ p ∈ l, p.ticketNo ≠ t)
    (i : Nat) : findConfirmedLoop t l i = -1 := by
  induction l generalizing i with
  | nil => rfl
  | cons a l ih =>
    have ha : a.ticketNo ≠ t := h a (List.mem_cons_self _ _)
    simp only [findConfirmedLoop, ha, if_false]
    exact ih (fun p hp => h p (List.mem_cons_of_mem _ hp)) _

theorem findConfirmedLoop_first {t : Int} {pre post : List Passenger} {p : Passenger}
    (hpre : ∀ q ∈ pre, q.ticketNo ≠ t) (hp : p.ticketNo = t) (i : Nat) :
    findConfirmedLoop t (pre ++ p :: post) i = castInt (i + pre.length) := by
  induction pre generalizing i with
  | nil => simp [findConfirmedLoop, hp]
  | cons a pre ih =>
    have ha : a.ticketNo ≠ t := hpre a (List.mem_cons_self _ _)
    have h := ih (fun q hq => hpre q (List.mem_cons_of_mem _ hq)) (i + 1)
    have e : i + 1 + pre.length = i + (pre.length + 1) := by omega
    rw [e] at h
    simpa [findConfirmedLoop, ha] using h

theorem removeFromWaitingLoop_eq (t : Int) (w tmp : List Passenger) (removed : Bool) :
    removeFromWaitingLoop t w tmp removed =
      (tmp ++ w.filter (fun p => decide (p.ticketNo ≠ t)),
        removed || w.any (fun p => decide (p.ticketNo = t))) := by
  induction w generalizing tmp removed with
  | nil => simp [removeFromWaitingLoop]
  | cons a w ih =>
    by_cases ha : a.ticketNo = t
    · simp [removeFromWaitingLoop, ha, ih]
    · simp [removeFromWaitingLoop, ha, ih]

/-- Cancelling a ticket whose first occurrence in `confirmed` is at an index that
fits an `int`. -/
theorem cancel_confirmed_eq (s : ReservationSystem) (t : Int) (now : Str)
    (pre post : List Passenger) (p : Passenger) (hc : s.confirmed = pre ++ p :: post)
    (hpre : ∀ q ∈ pre, q.ticketNo ≠ t) (hp : p.ticketNo = t)
    (hlen : (pre.length : Int) ≤ INT_MAX) :
    s.cancelBookingInteractive t now =
      match s.waiting with
      | w :: ws =>
        ({ s with confirmed := pre ++ post ++ [{ w with bookedAt := now }], waiting := ws },
          CancelOutcome.cancelledConfirmed p.ticketNo p.name (some w.ticketNo))
      | [] =>
        ({ s with confirmed := pre ++ post },
          CancelOutcome.cancelledConfirmed p.ticketNo p.name none) := by
  have hidx : findConfirmedIndexByTicket s t = (pre.length : Int) := by
    unfold findConfirmedIndexByTicket
    rw [hc, findConfirmedLoop_first hpre hp 0]
    simpa using castInt_of_le hlen
  have hne : (pre.length : Int) ≠ -1 := by omega
  unfold cancelBookingInteractive
  simp only [hidx, hne, ne_eq, not_false_eq_true, if_true, Int.toNat_ofNat, hc]
  have h1 : (pre ++ p :: post).eraseIdx pre.length = pre ++ post := by
    rw [List.eraseIdx_append_of_length_le (le_refl _)]
    simp
  have h2 : (pre ++ p :: post).getD pre.length default = p := by
    simp [List.getD_eq_getElem?_getD, List.getElem_append_right]
  rw [h1, h2]

/-- Cancelling a ticket that is not in `confirmed`. -/
theorem cancel_waiting_eq (s : ReservationSystem) (t : Int) (now : Str)
    (hc : ∀ q ∈ s.confirmed, q.ticketNo ≠ t) :
    s.cancelBookingInteractive t now =
      ({ s with waiting := s.waiting.filter (fun p => decide (p.ticketNo ≠ t)) },
        if s.waiting.any (fun p => decide (p.ticketNo = t)) then
          CancelOutcome.removedFromWaiting t
        else CancelOutcome.notFound) := by
  have hidx : findConfirmedIndexByTicket s t = -1 := findConfirmedLoop_absent hc 0
  unfold cancelBookingInteractive
  simp only [hidx, ne_eq, not_true_eq_false, if_false, removeFromWaiting,
    removeFromWaitingLoop_eq, List.nil_append, Bool.false_or]
  split <;> rfl

theorem run_nil (s : ReservationSystem) : run s [] = s := rfl

theorem run_cons (s : ReservationSystem) (op : Op) (ops : List Op) :
    run s (op :: ops) = run (step s op) ops := rfl

theorem run_snoc (s : ReservationSystem) (ops : List Op) (op : Op) :
    run s (ops ++ [op]) = step (run s ops) op := by
  simp [run, List.foldl_append]

/-- Induction over the runs from a state: a property of the start that every menu
action preserves holds after every run. -/
theorem run_induction (P : ReservationSystem → Prop) (s : ReservationSystem) (h0 : P s)
    (hstep : ∀ s op, P s → P (step s op)) (ops : List Op) : P (run s ops) := by
  induction ops generalizing s with
  | nil => exact h0
  | cons op ops ih => exact ih (step s op) (hstep s op h0)

end ReservationSystem

namespace ReservationSystem

theorem book_eq (s : ReservationSystem) (nameLine : Str) (age : Int) (gender now : Str)
    (h : trim nameLine ≠ []) :
    s.bookSeatInteractive nameLine age gender now =
      if castInt s.confirmed.length < s.TOTAL_SEATS then
        ({ s with nextTicketNo := s.nextTicketNo + 1,
                  confirmed := s.confirmed ++ [⟨s.nextTicketNo, trim nameLine, age, gender, now⟩] },
          BookOutcome.seatConfirmed s.nextTicketNo)
      else
        ({ s with nextTicketNo := s.nextTicketNo + 1,
                  waiting := s.waiting ++ [⟨s.nextTicketNo, trim nameLine, age, gender, now⟩] },
          BookOutcome.waitlisted s.nextTicketNo
            (waitingPositionLoop s.nextTicketNo
              (s.waiting ++ [⟨s.nextTicketNo, trim nameLine, age, gender, now⟩]) 1)) := by
  simp only [bookSeatInteractive, h, if_false, waitingPosition]

theorem book_empty (s : ReservationSystem) (nameLine : Str) (age : Int) (gender now : Str)
    (h : trim nameLine = []) :
    s.bookSeatInteractive nameLine age gender now = (s, BookOutcome.nameEmpty) := by
  simp only [bookSeatInteractive, h, if_true]

/-- The capacity invariant behind C1: the capacity never changes and `confirmed`
never holds more passengers than it. -/
theorem step_capacity (c : Int) (hmax : c ≤ INT_MAX) (s : ReservationSystem) (op : Op)
    (h : s.TOTAL_SEATS = c ∧ (s.confirmed.length : Int) ≤ c) :
    (step s op).TOTAL_SEATS = c ∧ ((step s op).confirmed.length : Int) ≤ c := by
  obtain ⟨hcap, hlen⟩ := h
  cases op with
  | book nameLine age gender now =>
    by_cases hn : trim nameLine = []
    · simp only [step, book_empty s _ _ _ _ hn]
      exact ⟨hcap, hlen⟩
    · simp only [step, book_eq s _ _ _ _ hn]
      rw [castInt_of_le (le_trans hlen hmax)]
      split
      · rename_i hlt
        refine ⟨hcap, ?_⟩
        simp only [List.length_append, List.length_singleton]
        push_cast
        omega
      · exact ⟨hcap, hlen⟩
  | cancel t now =>
    rcases findConfirmedLoop_spec t s.confirmed 0 with ⟨hall, _⟩ | ⟨pre, p, post, hl, hpre, hp, _⟩
    · simp only [step, cancel_waiting_eq s t now hall]
      exact ⟨hcap, hlen⟩
    · have hlen2 : (pre.length : Int) + 1 + post.length ≤ c := by
        rw [hl] at hlen
        simp only [List.length_append, List.length_cons] at hlen
        push_cast at hlen
        omega
      have hpl : (pre.length : Int) ≤ INT_MAX := by omega
      simp only [step, cancel_confirmed_eq s t now pre post p hl hpre hp hpl]
      cases s.waiting with
      | nil =>
        refine ⟨hcap, ?_⟩
        simp only [List.length_append]
        push_cast
        omega
      | cons w ws =>
        refine ⟨hcap, ?_⟩
        simp only [List.length_append, List.length_singleton]
        push_cast
        omega

end ReservationSystem

namespace ReservationSystem

theorem book_free (s : ReservationSystem) (r : BookRequest) (h : trim r.nameLine ≠ [])
    (hlen : (s.confirmed.length : Int) ≤ INT_MAX)
    (hfree : (s.confirmed.length : Int) < s.TOTAL_SEATS) :
    s.bookSeatInteractive r.nameLine r.age r.gender r.now =
      ({ s with nextTicketNo := s.nextTicketNo + 1,
                confirmed := s.confirmed ++ [passengerOf r s.nextTicketNo] },
        BookOutcome.seatConfirmed s.nextTicketNo) := by
  rw [book_eq s _ _ _ _ h, castInt_of_le hlen, if_pos hfree]
  rfl

theorem book_full (s : ReservationSystem) (r : BookRequest) (h : trim r.nameLine ≠ [])
    (hlen : (s.confirmed.length : Int) ≤ INT_MAX)
    (hfull : ¬ (s.confirmed.length : Int) < s.TOTAL_SEATS) :
    s.bookSeatInteractive r.nameLine r.age r.gender r.now =
      ({ s with nextTicketNo := s.nextTicketNo + 1,
                waiting := s.waiting ++ [passengerOf r s.nextTicketNo] },
        BookOutcome.waitlisted s.nextTicketNo
          (waitingPositionLoop s.nextTicketNo (s.waiting ++ [passengerOf r s.nextTicketNo]) 1)) := by
  rw [book_eq s _ _ _ _ h, castInt_of_le hlen, if_neg hfull]
  rfl

/-- Numbering the requests from `k` on, one request at a time. -/
theorem numbered_from_cons (k : Nat) (r : BookRequest) (rs : List BookRequest) :
    ((r :: rs).enumFrom k).map (fun ir => passengerOf ir.2 (ir.1 : Int)) =
      passengerOf r (k : Int) ::
        (rs.enumFrom (k + 1)).map (fun ir => passengerOf ir.2 (ir.1 : Int)) := by
  simp [List.enumFrom]

/-- What a run of valid bookings does to a state with `k` free seats. -/
theorem bookAll_spec (c : Int) (hmax : c ≤ INT_MAX) (reqs : List BookRequest) :
    ∀ (s : ReservationSystem) (k first : Nat), s.TOTAL_SEATS = c →
      (s.confirmed.length : Int) + k = c → s.nextTicketNo = (first : Int) →
      (∀ r ∈ reqs, trim r.nameLine ≠ []) →
      (bookAll s reqs).1.confirmed = s.confirmed ++
          ((reqs.enumFrom first).map (fun ir => passengerOf ir.2 (ir.1 : Int))).take k ∧
        (bookAll s reqs).1.waiting = s.waiting ++
          ((reqs.enumFrom first).map (fun ir => passengerOf ir.2 (ir.1 : Int))).drop k ∧
        (bookAll s reqs).1.nextTicketNo = (first : Int) + (reqs.length : Int) ∧
        (bookAll s reqs).2.map BookOutcome.ticket? =
          (List.range' first reqs.length).map (fun (i : Nat) => some (i : Int)) := by
  induction reqs with
  | nil =>
    intro s k first _ _ hn _
    simp [bookAll, hn]
  | cons r rs ih =>
    intro s k first hcap hk hn hvalid
    have hr : trim r.nameLine ≠ [] := hvalid r (List.mem_cons_self _ _)
    have hrs : ∀ r ∈ rs, trim r.nameLine ≠ [] := fun x hx => hvalid x (List.mem_cons_of_mem _ hx)
    have hlen : (s.confirmed.length : Int) ≤ INT_MAX := by omega
    rw [numbered_from_cons]
    cases k with
    | zero =>
      have hfull : ¬ ((s.confirmed.length : Int) < s.TOTAL_SEATS) := by
        have : (s.confirmed.length : Int) = c := by simpa using hk
        omega
      obtain ⟨h1, h2, h3, h4⟩ := ih
        { s with nextTicketNo := s.nextTicketNo + 1,
                 waiting := s.waiting ++ [passengerOf r s.nextTicketNo] }
        0 (first + 1) hcap (by simpa using hk) (by simp [hn]) hrs
      simp only [bookAll, book_full s r hr hlen hfull]
      refine ⟨?_, ?_, ?_, ?_⟩
      · rw [h1]; simp
      · rw [h2]; simp [hn]
      · rw [h3]; simp only [List.length_cons]; push_cast; omega
      · simp only [List.map_cons, BookOutcome.ticket?, List.length_cons, List.range'_succ]
        rw [h4, hn]
    | succ k =>
      have hfree : (s.confirmed.length : Int) < s.TOTAL_SEATS := by
        push_cast at hk
        omega
      obtain ⟨h1, h2, h3, h4⟩ := ih
        { s with nextTicketNo := s.nextTicketNo + 1,
                 confirmed := s.confirmed ++ [passengerOf r s.nextTicketNo] }
        k (first + 1) hcap
        (by simp only [List.length_append, List.length_singleton]; push_cast at hk ⊢; omega)
        (by simp [hn]) hrs
      simp only [bookAll, book_free s r hr hlen hfree]
      refine ⟨?_, ?_, ?_, ?_⟩
      · rw [h1]; simp [hn]
      · rw [h2]; simp
      · rw [h3]; simp only [List.length_cons]; push_cast; omega
      · simp only [List.map_cons, BookOutcome.ticket?, List.length_cons, List.range'_succ]
        rw [h4, hn]

end ReservationSystem

namespace ReservationSystem

/-- Cancelling never adds a ticket number: the numbers afterwards are a sublist of
those before, in any state. -/
theorem cancel_tickets_sublist (s : ReservationSystem) (t : Int) (now : Str) :
    (tickets (s.cancelBookingInteractive t now).1).Sublist (tickets s) := by
  unfold tickets
  by_cases hidx : findConfirmedIndexByTicket s t ≠ -1
  · simp only [cancelBookingInteractive, if_pos hidx]
    cases hw : s.waiting with
    | nil =>
      simp only [List.append_nil]
      exact (List.eraseIdx_sublist _ _).map _
    | cons w ws =>
      simp only [List.map_append, List.map_cons, List.map_nil, List.append_assoc,
        List.singleton_append]
      exact ((List.eraseIdx_sublist _ _).map _).append (List.Sublist.refl _)
  · simp only [cancelBookingInteractive, if_neg hidx, removeFromWaiting,
      removeFromWaitingLoop_eq, List.nil_append]
    split
    · exact ((List.Sublist.refl _).append (List.filter_sublist _)).map _
    · exact ((List.Sublist.refl _).append (List.filter_sublist _)).map _

theorem cancel_nextTicketNo (s : ReservationSystem) (t : Int) (now : Str) :
    (s.cancelBookingInteractive t now).1.nextTicketNo = s.nextTicketNo := by
  by_cases hidx : findConfirmedIndexByTicket s t ≠ -1
  · simp only [cancelBookingInteractive, if_pos hidx]
    cases s.waiting <;> rfl
  · simp only [cancelBookingInteractive, if_neg hidx, removeFromWaiting]
    split <;> rfl

theorem book_nextTicketNo (s : ReservationSystem) (nameLine : Str) (age : Int) (gender now : Str)
    (h : trim nameLine ≠ []) :
    (s.bookSeatInteractive nameLine age gender now).1.nextTicketNo = s.nextTicketNo + 1 ∧
      (s.bookSeatInteractive nameLine age gender now).2.ticket? = some s.nextTicketNo := by
  rw [book_eq s _ _ _ _ h]
  split <;> exact ⟨rfl, rfl⟩

/-- A valid booking adds exactly the counter value to the ticket numbers. -/
theorem book_tickets_perm (s : ReservationSystem) (nameLine : Str) (age : Int) (gender now : Str)
    (h : trim nameLine ≠ []) :
    (tickets (s.bookSeatInteractive nameLine age gender now).1).Perm
      (s.nextTicketNo :: tickets s) := by
  rw [book_eq s _ _ _ _ h]
  unfold tickets
  split
  · simp only [List.map_append, List.map_cons, List.map_nil, List.append_assoc,
      List.singleton_append]
    exact List.perm_middle
  · simp only [List.map_append, List.map_cons, List.map_nil]
    rw [← List.append_assoc]
    exact List.perm_append_singleton _ _

theorem step_ticketInv (s : ReservationSystem) (op : Op) (h : TicketInv s) :
    TicketInv (step s op) := by
  obtain ⟨hnd, hlt⟩ := h
  cases op with
  | book nameLine age gender now =>
    by_cases hn : trim nameLine = []
    · simp only [step, book_empty s _ _ _ _ hn]
      exact ⟨hnd, hlt⟩
    · have hperm := book_tickets_perm s nameLine age gender now hn
      have hnext := (book_nextTicketNo s nameLine age gender now hn).1
      refine ⟨hperm.nodup_iff.2 (List.nodup_cons.2 ⟨?_, hnd⟩), ?_⟩
      · intro hmem
        exact lt_irrefl _ (hlt _ hmem)
      · intro t ht
        simp only [step, hnext]
        rcases List.mem_cons.1 (hperm.mem_iff.1 ht) with rfl | ht
        · omega
        · have := hlt t ht
          omega
  | cancel t now =>
    have hsub := cancel_tickets_sublist s t now
    refine ⟨hsub.nodup hnd, ?_⟩
    intro x hx
    simp only [step, cancel_nextTicketNo]
    exact hlt x (hsub.subset hx)

theorem init_ticketInv (c : Int) : TicketInv (init c) := by
  simp [TicketInv, tickets, init]

theorem run_ticketInv (c : Int) (ops : List Op) : TicketInv (run (init c) ops) :=
  run_induction TicketInv _ (init_ticketInv c) step_ticketInv ops

/-- The tickets issued along a run are consecutive, starting at the counter. -/
theorem issuedTickets_eq (ops : List Op) : ∀ s : ReservationSystem,
    issuedTickets s ops =
        (List.range (issuedTickets s ops).length).map (fun (i : Nat) => s.nextTicketNo + (i : Int)) ∧
      (run s ops).nextTicketNo = s.nextTicketNo + ((issuedTickets s ops).length : Int) := by
  induction ops with
  | nil => intro s; simp [issuedTickets, run]
  | cons op ops ih =>
    intro s
    obtain ⟨h1, h2⟩ := ih (step s op)
    cases op with
    | book nameLine age gender now =>
      by_cases hn : trim nameLine = []
      · have hs : step s (Op.book nameLine age gender now) = s := by
          simp only [step, book_empty s _ _ _ _ hn]
        have hi : issued s (Op.book nameLine age gender now) = none := by
          simp only [issued, book_empty s _ _ _ _ hn]
        rw [hs] at h1 h2
        simp only [issuedTickets, hi, run_cons, hs]
        exact ⟨h1, h2⟩
      · obtain ⟨hnext, htk⟩ := book_nextTicketNo s nameLine age gender now hn
        have hi : issued s (Op.book nameLine age gender now) = some s.nextTicketNo := by
          simp only [issued]
          revert htk
          cases (s.bookSeatInteractive nameLine age gender now).2 <;> simp [BookOutcome.ticket?]
        have hs : (step s (Op.book nameLine age gender now)).nextTicketNo = s.nextTicketNo + 1 :=
          hnext
        simp only [issuedTickets, hi, run_cons, List.length_cons]
        rw [hs] at h1 h2
        refine ⟨?_, ?_⟩
        · rw [List.range_succ_eq_map]
          simp only [List.map_cons, List.map_map, Nat.cast_zero, add_zero]
          congr 1
          conv_lhs => rw [h1]
          apply List.map_congr_left
          intro i _
          simp only [Function.comp, Nat.cast_succ]
          omega
        · rw [h2]
          push_cast
          omega
    | cancel t now =>
      have hs : (step s (Op.cancel t now)).nextTicketNo = s.nextTicketNo :=
        cancel_nextTicketNo s t now
      have hi : issued s (Op.cancel t now) = none := rfl
      rw [hs] at h1 h2
      simp only [issuedTickets, hi, run_cons]
      exact ⟨h1, h2⟩

end ReservationSystem

/-! ## Decimal numbers -/

theorem digitChar_isDigit {d : Nat} (h : d < 10) : (digitChar d).isDigit = true := by
  interval_cases d <;> decide

theorem digitChar_value {d : Nat} (h : d < 10) : (digitChar d).toNat - 48 = d := by
  interval_cases d <;> decide

theorem natDigits_ne_nil (fuel n : Nat) : natDigits (fuel + 1) n ≠ [] := by
  unfold natDigits
  split <;> simp

theorem natDigits_isDigit : ∀ (fuel n : Nat), ∀ ch ∈ natDigits fuel n, ch.isDigit = true := by
  intro fuel
  induction fuel with
  | zero => intro n ch h; simp [natDigits] at h
  | succ fuel ih =>
    intro n ch h
    unfold natDigits at h
    split at h
    · rename_i hn
      rw [List.mem_singleton] at h
      rw [h]
      exact digitChar_isDigit hn
    · rcases List.mem_append.1 h with h | h
      · exact ih _ ch h
      · rw [List.mem_singleton] at h
        rw [h]
        exact digitChar_isDigit (Nat.mod_lt _ (by decide))

theorem digitsValue_append_singleton (ds : Str) (ch : Char) :
    digitsValue (ds ++ [ch]) = digitsValue ds * 10 + (ch.toNat - 48) := by
  simp [digitsValue, List.foldl_append]

theorem digitsValue_natDigits : ∀ (fuel n : Nat), n < fuel → digitsValue (natDigits fuel n) = n := by
  intro fuel
  induction fuel with
  | zero => intro n h; omega
  | succ fuel ih =>
    intro n h
    unfold natDigits
    split
    · rename_i hn
      simp [digitsValue, digitChar_value hn]
    · rename_i hn
      rw [digitsValue_append_singleton, ih (n / 10) (by omega),
        digitChar_value (Nat.mod_lt _ (by decide))]
      omega

theorem isDigit_not_special {ch : Char} (h : ch.isDigit = true) :
    ch ≠ '-' ∧ ch ≠ '+' ∧ ch ≠ ',' ∧ ch ≠ '"' ∧ ch ≠ '\n' ∧ isSpace ch = false := by
  refine ⟨?_, ?_, ?_, ?_, ?_, ?_⟩
  · rintro rfl; revert h; decide
  · rintro rfl; revert h; decide
  · rintro rfl; revert h; decide
  · rintro rfl; revert h; decide
  · rintro rfl; revert h; decide
  · cases hs : isSpace ch with
    | false => rfl
    | true =>
      exfalso
      simp only [isSpace, Bool.or_eq_true, decide_eq_true_eq] at hs
      rcases hs with ((((rfl | rfl) | rfl) | rfl) | rfl) | rfl <;> revert h <;> decide

theorem takeWhile_all {α : Type} (p : α → Bool) (l : List α) (h : ∀ x ∈ l, p x = true) :
    l.takeWhile p = l := by
  induction l with
  | nil => rfl
  | cons a l ih =>
    rw [List.takeWhile_cons, h a (List.mem_cons_self _ _), if_pos rfl,
      ih (fun x hx => h x (List.mem_cons_of_mem _ hx))]

/-- Reading back a run of digits that starts the text. -/
theorem parseInteger_digits (ds : Str) (hne : ds ≠ []) (hd : ∀ ch ∈ ds, ch.isDigit = true) :
    parseInteger ds = some (digitsValue ds : Int) ∧
      parseInteger ('-' :: ds) = some (-(digitsValue ds : Int)) := by
  obtain ⟨d, rest, rfl⟩ := List.exists_cons_of_ne_nil hne
  have hdig := hd d (List.mem_cons_self _ _)
  obtain ⟨h1, h2, _, _, _, h6⟩ := isDigit_not_special hdig
  have hsign : readSign (d :: rest) = (false, d :: rest) := by
    unfold readSign
    split
    · rename_i heq; cases heq; exact absurd rfl h1
    · rename_i heq; cases heq; exact absurd rfl h2
    · rfl
  have hdrop : (d :: rest).dropWhile isSpace = d :: rest := by
    rw [List.dropWhile_cons, h6]
    rfl
  have hdrop2 : ('-' :: d :: rest).dropWhile isSpace = '-' :: d :: rest := by
    rw [List.dropWhile_cons]
    rfl
  constructor
  · simp only [parseInteger, hdrop, hsign, takeWhile_all _ _ hd]
    simp
  · have hsign2 : readSign ('-' :: d :: rest) = (true, d :: rest) := rfl
    simp only [parseInteger, hdrop2, hsign2, takeWhile_all _ _ hd]
    simp

theorem parseInteger_to_string (n : Int) : parseInteger (to_string n) = some n := by
  have hne := natDigits_ne_nil n.natAbs n.natAbs
  have hd := natDigits_isDigit (n.natAbs + 1) n.natAbs
  have hv := digitsValue_natDigits (n.natAbs + 1) n.natAbs (by omega)
  obtain ⟨hpos, hneg⟩ := parseInteger_digits _ hne hd
  unfold to_string
  split
  · rw [hneg, hv]
    congr 1
    omega
  · rw [hpos, hv]
    congr 1
    omega

theorem stoll_to_string (n : Int) (h1 : LLONG_MIN ≤ n) (h2 : n ≤ LLONG_MAX) :
    stoll (to_string n) = some n := by
  simp [stoll, parseInteger_to_string, h1, h2]

theorem stoi_to_string (n : Int) (h1 : INT_MIN ≤ n) (h2 : n ≤ INT_MAX) :
    stoi (to_string n) = some n := by
  simp [stoi, parseInteger_to_string, h1, h2]

/-- `to_string` writes digits and possibly a minus sign only. -/
theorem to_string_chars (n : Int) : ∀ ch ∈ to_string n, ch ≠ ',' ∧ ch ≠ '"' ∧ ch ≠ '\n' := by
  intro ch h
  have hd := natDigits_isDigit (n.natAbs + 1) n.natAbs
  have key : ch = '-' ∨ ch.isDigit = true := by
    unfold to_string at h
    split at h
    · rcases List.mem_cons.1 h with h | h
      · exact Or.inl h
      · exact Or.inr (hd ch h)
    · exact Or.inr (hd ch h)
  rcases key with rfl | hk
  · decide
  · obtain ⟨_, _, h3, h4, h5, _⟩ := isDigit_not_special hk
    exact ⟨h3, h4, h5⟩

theorem to_string_ne_nil (n : Int) : to_string n ≠ [] := by
  unfold to_string
  split
  · simp
  · exact natDigits_ne_nil _ _

/-! ## Field splitting -/

namespace Passenger

theorem splitFields_open (rest : Str) (fields : List Str) (cur : Str) :
    splitFields ('"' :: rest) fields cur false = splitFields rest fields cur true := by
  cases rest with
  | nil => rw [splitFields.eq_3, if_pos rfl]; rfl
  | cons d rest => rw [splitFields.eq_2, if_pos rfl, if_neg (by simp)]; rfl

theorem splitFields_pair (rest : Str) (fields : List Str) (cur : Str) :
    splitFields ('"' :: '"' :: rest) fields cur true =
      splitFields rest fields (cur ++ ['"']) true := by
  rw [splitFields.eq_2, if_pos rfl, if_pos ⟨rfl, rfl⟩]

theorem splitFields_close_nil (fields : List Str) (cur : Str) :
    splitFields ['"'] fields cur true = splitFields [] fields cur false := by
  rw [splitFields.eq_3, if_pos rfl]
  rfl

theorem splitFields_close (d : Char) (rest : Str) (fields : List Str) (cur : Str)
    (hd : d ≠ '"') :
    splitFields ('"' :: d :: rest) fields cur true = splitFields (d :: rest) fields cur false := by
  rw [splitFields.eq_2, if_pos rfl, if_neg (fun h => hd h.2)]
  rfl

theorem splitFields_comma (rest : Str) (fields : List Str) (cur : Str) :
    splitFields (',' :: rest) fields cur false = splitFields rest (fields ++ [cur]) [] false := by
  cases rest with
  | nil => rw [splitFields.eq_3, if_neg (by decide), if_pos ⟨rfl, rfl⟩]
  | cons d rest => rw [splitFields.eq_2, if_neg (by decide), if_pos ⟨rfl, rfl⟩]

theorem splitFields_char (ch : Char) (rest : Str) (fields : List Str) (cur : Str)
    (inQuotes : Bool) (h1 : ch ≠ '"') (h2 : ch ≠ ',' ∨ inQuotes = true) :
    splitFields (ch :: rest) fields cur inQuotes =
      splitFields rest fields (cur ++ [ch]) inQuotes := by
  have hc : ¬ (ch = ',' ∧ inQuotes = false) := by
    rintro ⟨e1, e2⟩
    rcases h2 with h2 | h2
    · exact h2 e1
    · rw [h2] at e2
      cases e2
  cases rest with
  | nil => rw [splitFields.eq_3, if_neg h1, if_neg hc]
  | cons d rest => rw [splitFields.eq_2, if_neg h1, if_neg hc]

/-- Outside quotes, text without `,` and `"` is copied to the current field. -/
theorem splitFields_plain (s tail : Str) (fields : List Str) (cur : Str)
    (hs : ∀ ch ∈ s, ch ≠ ',' ∧ ch ≠ '"') :
    splitFields (s ++ tail) fields cur false = splitFields tail fields (cur ++ s) false := by
  induction s generalizing cur with
  | nil => simp
  | cons a s ih =>
    obtain ⟨h1, h2⟩ := hs a (List.mem_cons_self _ _)
    rw [List.cons_append, splitFields_char a _ _ _ _ h2 (Or.inl h1),
      ih _ (fun ch hch => hs ch (List.mem_cons_of_mem _ hch))]
    simp

/-- Inside quotes, the doubled text followed by the closing quote gives the text
back, when what follows the closing quote is not another quote. -/
theorem splitFields_quoted (s tail : Str) (fields : List Str) (cur : Str)
    (ht : ∀ d rest, tail = d :: rest → d ≠ '"') :
    splitFields (doubleQuotes s ++ '"' :: tail) fields cur true =
      splitFields tail fields (cur ++ s) false := by
  induction s generalizing cur with
  | nil =>
    simp only [doubleQuotes, List.nil_append, List.append_nil]
    cases tail with
    | nil => exact splitFields_close_nil _ _
    | cons d rest => exact splitFields_close d rest _ _ (ht d rest rfl)
  | cons a s ih =>
    by_cases ha : a = '"'
    · subst ha
      simp only [doubleQuotes, if_true, List.cons_append]
      rw [splitFields_pair, ih]
      simp
    · simp only [doubleQuotes, ha, if_false, List.cons_append]
      rw [splitFields_char a _ _ _ _ ha (Or.inr rfl), ih]
      simp

theorem doubleQuotes_of_no_quote (s : Str) (h : '"' ∉ s) : doubleQuotes s = s := by
  induction s with
  | nil => rfl
  | cons a s ih =>
    have ha : a ≠ '"' := fun e => h (e ▸ List.mem_cons_self _ _)
    simp only [doubleQuotes, ha, if_false]
    rw [ih (fun hm => h (List.mem_cons_of_mem _ hm))]

/-- The text `esc` produces, by cases. -/
theorem esc_eq (s : Str) :
    esc s = if ',' ∈ s ∨ '"' ∈ s then '"' :: (doubleQuotes s ++ ['"']) else s := by
  unfold esc
  by_cases h1 : ',' ∈ s
  · simp [h1]
  · by_cases h2 : '"' ∈ s
    · simp [h2]
    · simp [h1, h2, doubleQuotes_of_no_quote s h2]

/-- The scanner reads an escaped field back, when the field is followed by the end of
the line or by a comma. -/
theorem splitFields_esc (s tail : Str) (fields : List Str) (cur : Str)
    (ht : ∀ d rest, tail = d :: rest → d ≠ '"') :
    splitFields (esc s ++ tail) fields cur false = splitFields tail fields (cur ++ s) false := by
  rw [esc_eq]
  split
  · rw [List.cons_append, splitFields_open, List.append_assoc, List.singleton_append,
      splitFields_quoted s tail fields cur ht]
  · rename_i h
    apply splitFields_plain
    intro ch hch
    constructor
    · rintro rfl
      exact h (Or.inl hch)
    · rintro rfl
      exact h (Or.inr hch)

theorem splitFields_toCSV (p : Passenger) :
    splitFields p.toCSV [] [] false =
      [to_string p.ticketNo, p.name, to_string p.age, p.gender, p.bookedAt] := by
  have hplain : ∀ n : Int, ∀ ch ∈ to_string n, ch ≠ ',' ∧ ch ≠ '"' :=
    fun n ch h => ⟨(to_string_chars n ch h).1, (to_string_chars n ch h).2.1⟩
  have hcomma : ∀ (x : Str) (d : Char) (rest : Str), ',' :: x = d :: rest → d ≠ '"' := by
    intro x d rest h
    cases h
    decide
  have hnil : ∀ (d : Char) (rest : Str), ([] : Str) = d :: rest → d ≠ '"' := by
    intro d rest h
    cases h
  unfold toCSV
  simp only [List.append_assoc, List.singleton_append, List.cons_append, List.nil_append]
  rw [splitFields_plain _ _ _ _ (hplain _), splitFields_comma,
    splitFields_esc _ _ _ _ (hcomma _), splitFields_comma,
    splitFields_plain _ _ _ _ (hplain _), splitFields_comma,
    splitFields_esc _ _ _ _ (hcomma _), splitFields_comma]
  have h5 : ∀ fields : List Str, splitFields (esc p.bookedAt) fields [] false =
      fields ++ [p.bookedAt] := by
    intro fields
    have h := splitFields_esc p.bookedAt [] fields [] hnil
    rw [List.append_nil] at h
    rw [h, splitFields.eq_1, List.nil_append]
  rw [h5]
  simp

/-- Reading back a written record. -/
theorem fromCSV_toCSV (p : Passenger) (h1 : LLONG_MIN ≤ p.ticketNo) (h2 : p.ticketNo ≤ LLONG_MAX)
    (h3 : INT_MIN ≤ p.age) (h4 : p.age ≤ INT_MAX) : fromCSV p.toCSV = some p := by
  unfold fromCSV
  rw [splitFields_toCSV]
  simp [stoll_to_string _ h1 h2, stoi_to_string _ h3 h4]

end Passenger

/-! ## Files -/

namespace Passenger

theorem doubleQuotes_mem {s : Str} {ch : Char} (h : ch ∈ doubleQuotes s) : ch = '"' ∨ ch ∈ s := by
  induction s with
  | nil => simp [doubleQuotes] at h
  | cons a s ih =>
    unfold doubleQuotes at h
    split at h
    · rename_i ha
      rcases List.mem_cons.1 h with h | h
      · exact Or.inl h
      · rcases List.mem_cons.1 h with h | h
        · exact Or.inl h
        · rcases ih h with h | h
          · exact Or.inl h
          · exact Or.inr (List.mem_cons_of_mem _ h)
    · rcases List.mem_cons.1 h with h | h
      · exact Or.inr (h ▸ List.mem_cons_self _ _)
      · rcases ih h with h | h
        · exact Or.inl h
        · exact Or.inr (List.mem_cons_of_mem _ h)

theorem esc_no_newline {s : Str} (h : '\n' ∉ s) : '\n' ∉ esc s := by
  intro hm
  rw [esc_eq] at hm
  split at hm
  · rcases List.mem_cons.1 hm with hm | hm
    · revert hm; decide
    · rcases List.mem_append.1 hm with hm | hm
      · rcases doubleQuotes_mem hm with hm | hm
        · revert hm; decide
        · exact h hm
      · rw [List.mem_singleton] at hm
        revert hm; decide
  · exact h hm

theorem toCSV_no_newline (p : Passenger) (h : p.OneLine) : '\n' ∉ p.toCSV := by
  obtain ⟨h1, h2, h3⟩ := h
  have hts : ∀ n : Int, '\n' ∉ to_string n := fun n hm => (to_string_chars n _ hm).2.2 rfl
  have hc : '\n' ∉ [','] := by decide
  unfold toCSV
  simp only [List.mem_append, not_or]
  exact ⟨⟨⟨⟨⟨⟨⟨⟨hts _, hc⟩, esc_no_newline h1⟩, hc⟩, hts _⟩, hc⟩, esc_no_newline h2⟩, hc⟩,
    esc_no_newline h3⟩

theorem toCSV_ne_nil (p : Passenger) : p.toCSV ≠ [] := by
  unfold toCSV
  simp [to_string_ne_nil]

end Passenger

theorem getlines_line (l rest cur : Str) (h : '\n' ∉ l) :
    getlines (l ++ '\n' :: rest) cur = (cur ++ l) :: getlines rest [] := by
  induction l generalizing cur with
  | nil => simp [getlines]
  | cons a l ih =>
    have ha : a ≠ '\n' := fun e => h (e ▸ List.mem_cons_self _ _)
    rw [List.cons_append, getlines, if_neg ha, ih _ (fun hm => h (List.mem_cons_of_mem _ hm))]
    simp

namespace ReservationSystem

theorem getlines_writeLines (ps : List Passenger) (h : ∀ p ∈ ps, p.OneLine) :
    getlines (writeLines ps) [] = ps.map Passenger.toCSV := by
  induction ps with
  | nil => simp [writeLines, getlines]
  | cons p ps ih =>
    rw [writeLines, List.append_assoc, List.singleton_append,
      getlines_line _ _ _ (Passenger.toCSV_no_newline p (h p (List.mem_cons_self _ _))),
      ih (fun q hq => h q (List.mem_cons_of_mem _ hq))]
    simp

theorem loadLoop_toCSV (ps acc : List Passenger) (h : ∀ p ∈ ps, p.InRange) :
    loadLoop (ps.map Passenger.toCSV) acc = some (acc ++ ps) := by
  induction ps generalizing acc with
  | nil => simp [loadLoop]
  | cons p ps ih =>
    obtain ⟨h1, h2, h3, h4⟩ := h p (List.mem_cons_self _ _)
    rw [List.map_cons, loadLoop, if_pos (Passenger.toCSV_ne_nil p)]
    simp only [Passenger.fromCSV_toCSV p h1 h2 h3 h4]
    rw [ih _ (fun q hq => h q (List.mem_cons_of_mem _ hq))]
    simp

/-- Writing a collection and reading the text back appends the collection. -/
theorem loadLoop_writeLines (ps acc : List Passenger) (h1 : ∀ p ∈ ps, p.InRange)
    (h2 : ∀ p ∈ ps, p.OneLine) :
    loadLoop (getlines (writeLines ps) []) acc = some (acc ++ ps) := by
  rw [getlines_writeLines ps h2, loadLoop_toCSV ps acc h1]

theorem trim_subset (s : Str) : ∀ ch ∈ trim s, ch ∈ s := by
  intro ch h
  unfold trim at h
  split at h
  · simp at h
  · rw [List.mem_reverse] at h
    have h2 := (List.dropWhile_sublist _).subset h
    rw [List.mem_reverse] at h2
    exact (List.dropWhile_sublist _).subset h2

/-- Every passenger in the ledger after a cancel was there before, up to the new
timestamp of a promoted one. -/
theorem cancel_mem (s : ReservationSystem) (t : Int) (now : Str) (p : Passenger)
    (h : p ∈ (s.cancelBookingInteractive t now).1.confirmed ++
      (s.cancelBookingInteractive t now).1.waiting) :
    p ∈ s.confirmed ++ s.waiting ∨ ∃ w ∈ s.waiting, p = { w with bookedAt := now } := by
  by_cases hidx : findConfirmedIndexByTicket s t ≠ -1
  · simp only [cancelBookingInteractive, if_pos hidx] at h
    cases hw : s.waiting with
    | nil =>
      rw [hw] at h
      simp only [List.append_nil] at h
      exact Or.inl (List.mem_append_left _ ((List.eraseIdx_sublist _ _).subset h))
    | cons w ws =>
      rw [hw] at h
      simp only [List.mem_append, List.mem_singleton] at h
      rcases h with (h | h) | h
      · exact Or.inl (List.mem_append_left _ ((List.eraseIdx_sublist _ _).subset h))
      · exact Or.inr ⟨w, List.mem_cons_self _ _, h⟩
      · exact Or.inl (List.mem_append_right _ (List.mem_cons_of_mem _ h))
  · simp only [cancelBookingInteractive, if_neg hidx, removeFromWaiting,
      removeFromWaitingLoop_eq, List.nil_append] at h
    left
    split at h
    · rcases List.mem_append.1 h with h | h
      · exact List.mem_append_left _ h
      · exact List.mem_append_right _ ((List.filter_sublist _).subset h)
    · rcases List.mem_append.1 h with h | h
      · exact List.mem_append_left _ h
      · exact List.mem_append_right _ ((List.filter_sublist _).subset h)

/-- Every passenger in the ledger after a valid booking was there before or is the
new one. -/
theorem book_mem (s : ReservationSystem) (nameLine : Str) (age : Int) (gender now : Str)
    (hn : trim nameLine ≠ []) (p : Passenger)
    (h : p ∈ (s.bookSeatInteractive nameLine age gender now).1.confirmed ++
      (s.bookSeatInteractive nameLine age gender now).1.waiting) :
    p ∈ s.confirmed ++ s.waiting ∨ p = ⟨s.nextTicketNo, trim nameLine, age, gender, now⟩ := by
  rw [book_eq s _ _ _ _ hn] at h
  split at h
  · simp only [List.mem_append, List.mem_singleton] at h
    rcases h with (h | h) | h
    · exact Or.inl (List.mem_append_left _ h)
    · exact Or.inr h
    · exact Or.inl (List.mem_append_right _ h)
  · simp only [List.mem_append, List.mem_singleton] at h
    rcases h with h | h | h
    · exact Or.inl (List.mem_append_left _ h)
    · exact Or.inl (List.mem_append_right _ h)
    · exact Or.inr h

theorem step_recordInv (s : ReservationSystem) (op : Op) (hop : op.ConsoleInput)
    (h : RecordInv s) : RecordInv (step s op) := by
  obtain ⟨hnext, hall⟩ := h
  cases op with
  | book nameLine age gender now =>
    obtain ⟨i1, i2, i3, i4, i5⟩ := hop
    by_cases hn : trim nameLine = []
    · simp only [step, book_empty s _ _ _ _ hn]
      exact ⟨hnext, hall⟩
    · have hnx := (book_nextTicketNo s nameLine age gender now hn).1
      refine ⟨by simp only [step, hnx]; omega, ?_⟩
      intro p hp
      simp only [step, hnx]
      rcases book_mem s nameLine age gender now hn p hp with hp | rfl
      · obtain ⟨a1, a2, a3, a4, a5⟩ := hall p hp
        exact ⟨a1, by omega, a3, a4, a5⟩
      · refine ⟨hnext, by simp, i2, i3, ?_, ?_, i5⟩
        · exact fun hm => i1 (trim_subset _ _ hm)
        · show '\n' ∉ gender
          rcases i4 with rfl | rfl | rfl <;> decide
  | cancel t now =>
    have hnx := cancel_nextTicketNo s t now
    refine ⟨by simp only [step, hnx]; exact hnext, ?_⟩
    intro p hp
    simp only [step, hnx]
    rcases cancel_mem s t now p hp with hp | ⟨w, hw, rfl⟩
    · exact hall p hp
    · obtain ⟨a1, a2, a3, a4, a5, a6, _⟩ := hall w (List.mem_append_right _ hw)
      exact ⟨a1, a2, a3, a4, a5, a6, hop⟩

theorem run_recordInv (ops : List Op) : ∀ s : ReservationSystem, RecordInv s →
    (∀ op ∈ ops, op.ConsoleInput) → RecordInv (run s ops) := by
  induction ops with
  | nil => intro s h _; exact h
  | cons op ops ih =>
    intro s h hops
    exact ih (step s op) (step_recordInv s op (hops op (List.mem_cons_self _ _)) h)
      (fun o ho => hops o (List.mem_cons_of_mem _ ho))

theorem init_recordInv (c : Int) : RecordInv (init c) := by
  simp [RecordInv, init]

end ReservationSystem

/-! ## Seat allocation, ticket order and loading -/

namespace ReservationSystem

theorem waitingPositionLoop_spec (t : Int) (l : List Passenger) (pos : Int) :
    ((∀ p ∈ l, p.ticketNo ≠ t) ∧ waitingPositionLoop t l pos = -1) ∨
      ∃ pre p post, l = pre ++ p :: post ∧ (∀ q ∈ pre, q.ticketNo ≠ t) ∧ p.ticketNo = t ∧
        waitingPositionLoop t l pos = pos + (pre.length : Int) := by
  induction l generalizing pos with
  | nil => left; simp [waitingPositionLoop]
  | cons a l ih =>
    by_cases ha : a.ticketNo = t
    · right
      exact ⟨[], a, l, by simp, by simp, ha, by simp [waitingPositionLoop, ha]⟩
    · rcases ih (pos + 1) with ⟨hall, hres⟩ | ⟨pre, p, post, hl, hpre, hp, hres⟩
      · left
        refine ⟨?_, by simp [waitingPositionLoop, ha, hres]⟩
        intro q hq
        rcases List.mem_cons.1 hq with rfl | hq
        · exact ha
        · exact hall q hq
      · right
        refine ⟨a :: pre, p, post, by simp [hl], ?_, hp, ?_⟩
        · intro q hq
          rcases List.mem_cons.1 hq with rfl | hq
          · exact ha
          · exact hpre q hq
        · simp only [waitingPositionLoop, ha, if_false, hres, List.length_cons]
          push_cast
          omega

/-- The position of an entry whose ticket no earlier entry holds. -/
theorem waitingPositionLoop_first {t : Int} {pre post : List Passenger} {p : Passenger}
    (hpre : ∀ q ∈ pre, q.ticketNo ≠ t) (hp : p.ticketNo = t) (pos : Int) :
    waitingPositionLoop t (pre ++ p :: post) pos = pos + (pre.length : Int) := by
  induction pre generalizing pos with
  | nil => simp [waitingPositionLoop, hp]
  | cons a pre ih =>
    have ha : a.ticketNo ≠ t := hpre a (List.mem_cons_self _ _)
    have h := ih (fun q hq => hpre q (List.mem_cons_of_mem _ hq)) (pos + 1)
    have e : pos + 1 + (pre.length : Int) = pos + ((pre.length + 1 : Nat) : Int) := by
      push_cast
      omega
    rw [e] at h
    simpa [waitingPositionLoop, ha] using h

theorem waitingPositionLoop_absent {t : Int} {l : List Passenger} (h : ∀ p ∈ l, p.ticketNo ≠ t)
    (pos : Int) : waitingPositionLoop t l pos = -1 := by
  induction l generalizing pos with
  | nil => rfl
  | cons a l ih =>
    have ha : a.ticketNo ≠ t := h a (List.mem_cons_self _ _)
    simp only [waitingPositionLoop, ha, if_false]
    exact ih (fun p hp => h p (List.mem_cons_of_mem _ hp)) _

theorem init_seatInv (c : Int) : SeatInv c (init c) := by
  refine ⟨rfl, ?_, ?_⟩
  · simp [init]
  · intro h
    exact absurd rfl h

/-- Every menu action preserves the seat invariant, for a capacity that is an `int`. -/
theorem step_seatInv (c : Int) (hmax : c ≤ INT_MAX) (s : ReservationSystem) (op : Op)
    (h : SeatInv c s) : SeatInv c (step s op) := by
  obtain ⟨hcap, hlen, hwait⟩ := h
  have hlenmax : (s.confirmed.length : Int) ≤ INT_MAX := by
    unfold INT_MAX at hmax ⊢
    omega
  cases op with
  | book nameLine age gender now =>
    by_cases hn : trim nameLine = []
    · simp only [step, book_empty s _ _ _ _ hn]
      exact ⟨hcap, hlen, hwait⟩
    · simp only [step, book_eq s _ _ _ _ hn]
      rw [castInt_of_le hlenmax]
      split
      · rename_i hlt
        have hw : s.waiting = [] := by
          by_contra hne
          have := hwait hne
          omega
        refine ⟨hcap, ?_, ?_⟩
        · show ((s.confirmed ++ [_]).length : Int) ≤ max c 0
          simp only [List.length_append, List.length_singleton]
          push_cast
          omega
        · intro hne
          exact absurd hw hne
      · rename_i hge
        refine ⟨hcap, hlen, ?_⟩
        intro _
        show c ≤ (s.confirmed.length : Int)
        omega
  | cancel t now =>
    rcases findConfirmedLoop_spec t s.confirmed 0 with ⟨hall, _⟩ | ⟨pre, p, post, hl, hpre, hp, _⟩
    · simp only [step, cancel_waiting_eq s t now hall]
      refine ⟨hcap, hlen, ?_⟩
      intro hne
      apply hwait
      intro hw
      apply hne
      simp [hw]
    · have hlen2 : (s.confirmed.length : Int) = (pre.length : Int) + 1 + post.length := by
        rw [hl]
        simp only [List.length_append, List.length_cons]
        push_cast
        omega
      have hpl : (pre.length : Int) ≤ INT_MAX := by omega
      simp only [step, cancel_confirmed_eq s t now pre post p hl hpre hp hpl]
      cases hw : s.waiting with
      | nil =>
        refine ⟨hcap, ?_, ?_⟩
        · simp only [List.length_append]
          push_cast
          omega
        · intro hne
          exact absurd rfl hne
      | cons w ws =>
        have hfull := hwait (by rw [hw]; simp)
        refine ⟨hcap, ?_, ?_⟩
        · simp only [List.length_append, List.length_singleton]
          push_cast
          omega
        · intro _
          simp only [List.length_append, List.length_singleton]
          push_cast
          omega

theorem run_seatInv (c : Int) (hmax : c ≤ INT_MAX) (ops : List Op) :
    SeatInv c (run (init c) ops) :=
  run_induction (SeatInv c) _ (init_seatInv c) (step_seatInv c hmax) ops

theorem init_orderInv (c : Int) : OrderInv (init c) := by
  simp [OrderInv, tickets, init]

/-- Every menu action preserves the order invariant in a state where a free seat
means that nobody waits. -/
theorem step_orderInv (s : ReservationSystem) (op : Op)
    (hq : castInt s.confirmed.length < s.TOTAL_SEATS → s.waiting = [])
    (h : OrderInv s) : OrderInv (step s op) := by
  obtain ⟨hsorted, hlt⟩ := h
  cases op with
  | book nameLine age gender now =>
    by_cases hn : trim nameLine = []
    · simp only [step, book_empty s _ _ _ _ hn]
      exact ⟨hsorted, hlt⟩
    · have hnext := (book_nextTicketNo s nameLine age gender now hn).1
      have htk : tickets (s.bookSeatInteractive nameLine age gender now).1 =
          tickets s ++ [s.nextTicketNo] := by
        rw [book_eq s _ _ _ _ hn]
        unfold tickets
        split
        · rename_i hfree
          simp [hq hfree]
        · simp
      refine ⟨?_, ?_⟩
      · simp only [step, htk]
        rw [List.pairwise_append]
        refine ⟨hsorted, List.pairwise_singleton _ _, ?_⟩
        intro a ha b hb
        rw [List.mem_singleton] at hb
        rw [hb]
        exact hlt a ha
      · intro t ht
        simp only [step, hnext, htk] at ht ⊢
        rcases List.mem_append.1 ht with ht | ht
        · have := hlt t ht
          omega
        · rw [List.mem_singleton] at ht
          omega
  | cancel t now =>
    have hsub := cancel_tickets_sublist s t now
    refine ⟨hsorted.sublist hsub, ?_⟩
    intro x hx
    simp only [step, cancel_nextTicketNo]
    exact hlt x (hsub.subset hx)

theorem seatInv_free (c : Int) (hmax : c ≤ INT_MAX) (s : ReservationSystem) (h : SeatInv c s) :
    castInt s.confirmed.length < s.TOTAL_SEATS → s.waiting = [] := by
  obtain ⟨hcap, hlen, hwait⟩ := h
  have hlenmax : (s.confirmed.length : Int) ≤ INT_MAX := by
    unfold INT_MAX at hmax ⊢
    omega
  rw [castInt_of_le hlenmax, hcap]
  intro hfree
  by_contra hne
  have := hwait hne
  omega

/-- With a capacity above every `int`, `confirmed.size()` cast to `int` is always
below it, so nobody is ever put on the waiting list. -/
theorem step_no_waiting (c : Int) (hbig : INT_MAX < c) (s : ReservationSystem) (op : Op)
    (h : s.TOTAL_SEATS = c ∧ s.waiting = []) :
    (step s op).TOTAL_SEATS = c ∧ (step s op).waiting = [] := by
  obtain ⟨hcap, hw⟩ := h
  cases op with
  | book nameLine age gender now =>
    by_cases hn : trim nameLine = []
    · simp only [step, book_empty s _ _ _ _ hn]
      exact ⟨hcap, hw⟩
    · have hfree : castInt s.confirmed.length < s.TOTAL_SEATS := by
        rw [hcap]
        unfold castInt
        unfold INT_MAX at hbig
        omega
      simp only [step, book_eq s _ _ _ _ hn, if_pos hfree]
      exact ⟨hcap, hw⟩
  | cancel t now =>
    by_cases hidx : findConfirmedIndexByTicket s t ≠ -1
    · simp only [step, cancelBookingInteractive, if_pos hidx, hw]
      exact ⟨hcap, trivial⟩
    · simp only [step, cancelBookingInteractive, if_neg hidx, removeFromWaiting,
        removeFromWaitingLoop_eq, List.nil_append, hw]
      split <;> exact ⟨hcap, rfl⟩

/-- In every run from the empty ledger, a free seat means that nobody waits, and the
ticket numbers are in increasing order. -/
theorem run_orderInv (c : Int) (ops : List Op) : OrderInv (run (init c) ops) := by
  rcases le_or_lt c INT_MAX with hmax | hbig
  · have key := run_induction (fun s => SeatInv c s ∧ OrderInv s) (init c)
      ⟨init_seatInv c, init_orderInv c⟩
      (fun s op h => ⟨step_seatInv c hmax s op h.1,
        step_orderInv s op (seatInv_free c hmax s h.1) h.2⟩) ops
    exact key.2
  · have key := run_induction
      (fun s => (s.TOTAL_SEATS = c ∧ s.waiting = []) ∧ OrderInv s) (init c)
      ⟨⟨rfl, rfl⟩, init_orderInv c⟩
      (fun s op h => ⟨step_no_waiting c hbig s op h.1,
        step_orderInv s op (fun _ => h.1.2) h.2⟩) ops
    exact key.2

end ReservationSystem

namespace ReservationSystem

/-- The loop of `loadData` appends what it reads to the collection it is given. -/
theorem loadLoop_acc (lines : List Str) (acc : List Passenger) :
    loadLoop lines acc = (loadLoop lines []).map (fun ps => acc ++ ps) := by
  induction lines generalizing acc with
  | nil => simp [loadLoop]
  | cons line rest ih =>
    by_cases hl : line = []
    · simp only [loadLoop, hl, ne_eq, not_true_eq_false, if_false]
      exact ih acc
    · simp only [loadLoop, hl, ne_eq, not_false_eq_true, if_true]
      cases Passenger.fromCSV line with
      | none => rfl
      | some p =>
        simp only [List.nil_append]
        rw [ih (acc ++ [p]), ih [p]]
        cases loadLoop rest [] with
        | none => rfl
        | some ps => simp

/-- The constructor leaves the counter at its initial value 1, whatever the files
hold. -/
theorem create_nextTicketNo (c : Int) (confFile waitFile : Option Str) (s : ReservationSystem)
    (h : create c confFile waitFile = some s) : s.nextTicketNo = 1 := by
  unfold create loadData at h
  simp only [Option.bind_eq_some] at h
  obtain ⟨conf, _, wait, _, hs⟩ := h
  cases hs
  rfl

end ReservationSystem

/-! ## Record lines and streams given by their parts -/

theorem quoteDoubled_eq (f : Str) : quoteDoubled f = Passenger.doubleQuotes f := by
  induction f with
  | nil => rfl
  | cons a f ih =>
    unfold quoteDoubled at ih ⊢
    by_cases ha : a = '"'
    · simp [Passenger.doubleQuotes, ha, ih]
    · simp [Passenger.doubleQuotes, ha, ih]

namespace Passenger

/-- The scanner reads any way of writing a field back as the field, when the text is
followed by the end of the line or by a comma. -/
theorem splitFields_fieldText (e f tail : Str) (fields : List Str) (cur : Str)
    (h : FieldText e f) (ht : ∀ d rest, tail = d :: rest → d ≠ '"') :
    splitFields (e ++ tail) fields cur false = splitFields tail fields (cur ++ f) false := by
  rcases h with ⟨rfl, h1, h2⟩ | rfl
  · apply splitFields_plain
    intro ch hch
    constructor
    · rintro rfl
      exact h1 hch
    · rintro rfl
      exact h2 hch
  · rw [quoteDoubled_eq, List.cons_append, splitFields_open, List.append_assoc,
      List.singleton_append, splitFields_quoted f tail fields cur ht]

/-- The scanner splits a record line into the fields it was written from. -/
theorem splitFields_joinFields (es fs : List Str) (h : List.Forall₂ FieldText es fs) :
    es ≠ [] → ∀ fields : List Str,
      splitFields (joinFields es) fields [] false = fields ++ fs := by
  induction h with
  | nil => intro hne; exact absurd rfl hne
  | @cons e f es fs hef hrest ih =>
    intro _ fields
    cases hrest with
    | nil =>
      have h := splitFields_fieldText e f [] fields [] hef (fun d rest hd => by cases hd)
      rw [List.append_nil] at h
      rw [joinFields, h, splitFields.eq_1]
      rfl
    | @cons e2 f2 es2 fs2 hef2 hrest2 =>
      have htail : ∀ d rest, ',' :: joinFields (e2 :: es2) = d :: rest → d ≠ '"' := by
        intro d rest hd
        cases hd
        decide
      rw [joinFields, splitFields_fieldText e f _ fields [] hef htail, splitFields_comma,
        ih (by simp) (fields ++ [[] ++ f])]
      simp

end Passenger

theorem getlines_last (tail cur : Str) (h : '\n' ∉ tail) :
    getlines tail cur = if cur ++ tail = [] then [] else [cur ++ tail] := by
  induction tail generalizing cur with
  | nil => simp [getlines]
  | cons a tail ih =>
    have ha : a ≠ '\n' := fun e => h (e ▸ List.mem_cons_self _ _)
    rw [getlines, if_neg ha, ih _ (fun hm => h (List.mem_cons_of_mem _ hm))]
    simp

/-- The lines `getline` delivers from a stream made of full lines and a last line
without line feed. -/
theorem getlines_linesText (ls : List Str) (last : Str) (h : ∀ l ∈ ls ++ [last], '\n' ∉ l) :
    getlines (linesText ls ++ last) [] = ls ++ if last = [] then [] else [last] := by
  induction ls with
  | nil =>
    have hl : '\n' ∉ last := h last (by simp)
    simpa [linesText] using getlines_last last [] hl
  | cons l ls ih =>
    have hl : '\n' ∉ l := h l (by simp)
    rw [linesText, List.append_assoc, List.cons_append, getlines_line _ _ _ hl,
      ih (fun x hx => h x (by simp at hx ⊢; tauto))]
    simp

namespace ReservationSystem

/-- The loop of `loadData` appends, in order, the record of every non-empty line. -/
theorem loadLoop_records (lines : List Str) : ∀ (a acc : List Passenger),
    List.Forall₂ (fun l p => Passenger.fromCSV l = some p)
      (lines.filter (fun l => decide (l ≠ []))) a →
    loadLoop lines acc = some (acc ++ a) := by
  induction lines with
  | nil =>
    intro a acc h
    cases h
    simp [loadLoop]
  | cons l lines ih =>
    intro a acc h
    by_cases hl : l = []
    · rw [List.filter_cons_of_neg (by simpa using hl)] at h
      rw [loadLoop, if_neg (by simpa using hl)]
      exact ih a acc h
    · rw [List.filter_cons_of_pos (by simpa using hl)] at h
      cases h with
      | @cons _ p _ a2 hp hrest =>
        rw [loadLoop, if_pos hl]
        simp only [hp]
        rw [ih a2 (acc ++ [p]) hrest]
        simp

/-- The loop of `loadData` on a stream given by its lines. -/
theorem loadLoop_linesText (ls : List Str) (last : Str) (a acc : List Passenger)
    (h1 : ∀ l ∈ ls ++ [last], '\n' ∉ l)
    (h2 : List.Forall₂ (fun l p => Passenger.fromCSV l = some p)
      ((ls ++ [last]).filter (fun l => decide (l ≠ []))) a) :
    loadLoop (getlines (linesText ls ++ last) []) acc = some (acc ++ a) := by
  rw [getlines_linesText ls last h1]
  apply loadLoop_records
  by_cases hl : last = []
  · simpa [hl] using h2
  · simpa [hl] using h2

end ReservationSystem

/-! ## The claims -/

/-- C1: for every capacity `c >= 1` (a C++ `int`, so at most `INT_MAX`) and every
sequence of book and cancel actions applied to the empty ledger, every intermediate
state (the state after the first `k` actions, for every `k`) and the final state
have `confirmed.length <= c`. -/
theorem C1_confirmed_length_le_capacity (c : Int) (hc : 1 ≤ c) (hmax : c ≤ INT_MAX)
    (ops : List Op) (k : Nat) :
    (((ReservationSystem.init c).run (ops.take k)).confirmed.length : Int) ≤ c ∧
      (((ReservationSystem.init c).run ops).confirmed.length : Int) ≤ c := by
  have key : ∀ l : List Op, ((ReservationSystem.init c).run l).TOTAL_SEATS = c ∧
      (((ReservationSystem.init c).run l).confirmed.length : Int) ≤ c := by
    intro l
    refine ReservationSystem.run_induction
      (fun s => s.TOTAL_SEATS = c ∧ (s.confirmed.length : Int) ≤ c) _ ?_ ?_ l
    · refine ⟨rfl, ?_⟩
      simp only [ReservationSystem.init, List.length_nil]
      push_cast
      omega
    · intro s op h
      exact ReservationSystem.step_capacity c hmax s op h
  exact ⟨(key _).2, (key _).2⟩

/-- Witness of C1: capacity 1, two bookings and a cancellation. -/
theorem C1_confirmed_length_le_capacity_witness :
    (1 : Int) ≤ 1 ∧ (1 : Int) ≤ INT_MAX ∧
    ((((ReservationSystem.init 1).run
        ([Op.book ['A'] 30 ['F'] ['x'], Op.book ['B'] 25 ['M'] ['y'],
          Op.cancel 1 ['z']].take 2)).confirmed.length : Int) ≤ 1) ∧
      ((((ReservationSystem.init 1).run
        [Op.book ['A'] 30 ['F'] ['x'], Op.book ['B'] 25 ['M'] ['y'],
          Op.cancel 1 ['z']]).confirmed.length : Int) ≤ 1) :=
  ⟨by decide, by decide, C1_confirmed_length_le_capacity 1 (by decide) (by decide) _ 2⟩

/-- C2: for every capacity `c >= 1` (a C++ `int`) and every list of `n` valid book
requests (name not empty after trimming) applied in order to the empty ledger, the
`i`-th request (1-based) is given ticket number `i`; afterwards `confirmed` is
exactly the first `min(n, c)` requests in call order, `waiting` is exactly the
requests `c+1 .. n` in call order, and the counter is `n + 1`. -/
theorem C2_book_sequence (c : Int) (hc : 1 ≤ c) (hmax : c ≤ INT_MAX)
    (reqs : List BookRequest)
    (hvalid : ∀ r ∈ reqs, ReservationSystem.trim r.nameLine ≠ []) :
    (((ReservationSystem.init c).bookAll reqs).2.map BookOutcome.ticket? =
        (List.range' 1 reqs.length).map (fun (i : Nat) => some (i : Int))) ∧
      ((ReservationSystem.init c).bookAll reqs).1.confirmed =
        (ReservationSystem.numbered reqs).take (min reqs.length c.toNat) ∧
      ((ReservationSystem.init c).bookAll reqs).1.waiting =
        (ReservationSystem.numbered reqs).drop c.toNat ∧
      ((ReservationSystem.init c).bookAll reqs).1.nextTicketNo = (reqs.length : Int) + 1 := by
  obtain ⟨h1, h2, h3, h4⟩ := ReservationSystem.bookAll_spec c hmax reqs
    (ReservationSystem.init c) c.toNat 1 rfl
    (by simp only [ReservationSystem.init, List.length_nil]; push_cast; omega) rfl hvalid
  refine ⟨h4, ?_, ?_, ?_⟩
  · rw [h1]
    simp only [ReservationSystem.init, ReservationSystem.numbered, List.nil_append]
    have hl : ((reqs.enumFrom 1).map
        (fun ir => ReservationSystem.passengerOf ir.2 (ir.1 : Int))).length = reqs.length := by
      simp
    rcases le_total reqs.length c.toNat with h | h
    · rw [min_eq_left h, List.take_of_length_le (by omega), List.take_of_length_le (by omega)]
    · rw [min_eq_right h]
  · rw [h2]
    simp [ReservationSystem.init, ReservationSystem.numbered]
  · rw [h3]
    push_cast
    omega

/-- Witness of C2: capacity 1 and two requests, the second one waitlisted. -/
theorem C2_book_sequence_witness :
    (1 : Int) ≤ 1 ∧ (1 : Int) ≤ INT_MAX ∧
    (∀ r ∈ ([⟨['A'], 30, ['F'], ['x']⟩, ⟨['B'], 25, ['M'], ['y']⟩] : List BookRequest),
      ReservationSystem.trim r.nameLine ≠ []) ∧
    (((ReservationSystem.init 1).bookAll [⟨['A'], 30, ['F'], ['x']⟩, ⟨['B'], 25, ['M'], ['y']⟩]).2.map
        BookOutcome.ticket? = [some 1, some 2]) ∧
      ((ReservationSystem.init 1).bookAll
        [⟨['A'], 30, ['F'], ['x']⟩, ⟨['B'], 25, ['M'], ['y']⟩]).1.confirmed =
        [⟨1, ['A'], 30, ['F'], ['x']⟩] ∧
      ((ReservationSystem.init 1).bookAll
        [⟨['A'], 30, ['F'], ['x']⟩, ⟨['B'], 25, ['M'], ['y']⟩]).1.waiting =
        [⟨2, ['B'], 25, ['M'], ['y']⟩] ∧
      ((ReservationSystem.init 1).bookAll
        [⟨['A'], 30, ['F'], ['x']⟩, ⟨['B'], 25, ['M'], ['y']⟩]).1.nextTicketNo = 3 :=
  ⟨by decide, by decide, by decide, C2_book_sequence 1 (by decide) (by decide)
    [⟨['A'], 30, ['F'], ['x']⟩, ⟨['B'], 25, ['M'], ['y']⟩] (by decide)⟩

/-- C3: cancel never changes `nextTicketNo`; a valid book (name not empty after
trimming) shows the old counter value as its ticket and increases the counter by
exactly 1; so along any sequence of book and cancel actions from the empty ledger
the tickets issued are `1, 2, 3, ...` in order (each one more than the one issued
before, hence strictly increasing, however many cancels are interleaved), and in
every reachable state `nextTicketNo` is strictly greater than every ticket number
in `confirmed` or `waiting`. Ticket numbers are unbounded integers here. -/
theorem C3_ticket_numbers_increase (c : Int) (ops : List Op) :
    (∀ (s : ReservationSystem) (t : Int) (now : Str),
        (s.cancelBookingInteractive t now).1.nextTicketNo = s.nextTicketNo) ∧
      (∀ (s : ReservationSystem) (nameLine : Str) (age : Int) (gender now : Str),
        ReservationSystem.trim nameLine ≠ [] →
        (s.bookSeatInteractive nameLine age gender now).1.nextTicketNo = s.nextTicketNo + 1 ∧
          (s.bookSeatInteractive nameLine age gender now).2.ticket? = some s.nextTicketNo) ∧
      (ReservationSystem.issuedTickets (ReservationSystem.init c) ops =
        (List.range (ReservationSystem.issuedTickets (ReservationSystem.init c) ops).length).map
          (fun (i : Nat) => 1 + (i : Int))) ∧
      (ReservationSystem.issuedTickets (ReservationSystem.init c) ops).Chain'
        (fun a b => b = a + 1) ∧
      (ReservationSystem.issuedTickets (ReservationSystem.init c) ops).Pairwise (fun a b => a < b) ∧
      (∀ p ∈ ((ReservationSystem.init c).run ops).confirmed ++
          ((ReservationSystem.init c).run ops).waiting,
        p.ticketNo < ((ReservationSystem.init c).run ops).nextTicketNo) := by
  have hiss := (ReservationSystem.issuedTickets_eq ops (ReservationSystem.init c)).1
  have hiss1 : ReservationSystem.issuedTickets (ReservationSystem.init c) ops =
      (List.range (ReservationSystem.issuedTickets (ReservationSystem.init c) ops).length).map
        (fun (i : Nat) => 1 + (i : Int)) := hiss
  refine ⟨ReservationSystem.cancel_nextTicketNo, ReservationSystem.book_nextTicketNo, hiss1,
    ?_, ?_, ?_⟩
  · rw [hiss1, List.chain'_map]
    cases (ReservationSystem.issuedTickets (ReservationSystem.init c) ops).length with
    | zero => simp
    | succ n =>
      rw [List.chain'_range_succ]
      intro m _
      push_cast
      omega
  · rw [hiss1, List.pairwise_map]
    refine (List.pairwise_lt_range _).imp ?_
    intro a b hab
    omega
  · intro p hp
    exact (ReservationSystem.run_ticketInv c ops).2 p.ticketNo (List.mem_map_of_mem _ hp)

/-- A use of C3: a booking in a ledger whose counter is 7 shows ticket 7 and moves
the counter to 8. -/
theorem C3_ticket_numbers_increase_witness :
    ((⟨2, [], [], 7⟩ : ReservationSystem).bookSeatInteractive ['A'] 30 ['F'] ['x']).1.nextTicketNo
        = 7 + 1 ∧
      ((⟨2, [], [], 7⟩ : ReservationSystem).bookSeatInteractive ['A'] 30 ['F'] ['x']).2.ticket?
        = some 7 :=
  (C3_ticket_numbers_increase 2 []).2.1 ⟨2, [], [], 7⟩ ['A'] 30 ['F'] ['x'] (by decide)

/-- C4: in every state reachable from the empty ledger by book and cancel actions,
every ticket number occurs at most once in `confirmed ++ waiting`: none is repeated
inside `confirmed`, none inside `waiting`, and none is in both. -/
theorem C4_tickets_unique (c : Int) (ops : List Op) :
    ((((ReservationSystem.init c).run ops).confirmed ++
        ((ReservationSystem.init c).run ops).waiting).map Passenger.ticketNo).Nodup ∧
      (((ReservationSystem.init c).run ops).confirmed.map Passenger.ticketNo).Nodup ∧
      (((ReservationSystem.init c).run ops).waiting.map Passenger.ticketNo).Nodup ∧
      (∀ p ∈ ((ReservationSystem.init c).run ops).confirmed,
        ∀ q ∈ ((ReservationSystem.init c).run ops).waiting, p.ticketNo ≠ q.ticketNo) := by
  have h : ((((ReservationSystem.init c).run ops).confirmed ++
        ((ReservationSystem.init c).run ops).waiting).map Passenger.ticketNo).Nodup :=
    (ReservationSystem.run_ticketInv c ops).1
  refine ⟨h, ?_, ?_, ?_⟩
  · rw [List.map_append] at h
    exact (List.nodup_append.1 h).1
  · rw [List.map_append] at h
    exact (List.nodup_append.1 h).2.1
  · rw [List.map_append] at h
    intro p hp q hq heq
    exact (List.nodup_append.1 h).2.2 (List.mem_map_of_mem _ hp) (heq ▸ List.mem_map_of_mem _ hq)

/-- C5: in every ledger state (with a `confirmed` vector whose size fits an `int`)
where ticket `t` occurs in `confirmed` and `waiting` is not empty, cancel(t) erases
the first confirmed entry with ticket `t`, keeps the other confirmed entries in
order, takes exactly the head of `waiting` and appends it at the end of `confirmed`
with only its `bookedAt` replaced by the current timestamp; the rest of `waiting` is
unchanged, `waiting.length` drops by 1 and `confirmed.length` stays the same. -/
theorem C5_cancel_confirmed_promotes_head (s : ReservationSystem) (t : Int) (now : Str)
    (hmem : ∃ p ∈ s.confirmed, p.ticketNo = t) (hw : s.waiting ≠ [])
    (hsize : (s.confirmed.length : Int) ≤ INT_MAX) :
    ∃ pre p post w ws,
      s.confirmed = pre ++ p :: post ∧ (∀ q ∈ pre, q.ticketNo ≠ t) ∧ p.ticketNo = t ∧
      s.waiting = w :: ws ∧
      (s.cancelBookingInteractive t now).1.confirmed =
        pre ++ post ++ [⟨w.ticketNo, w.name, w.age, w.gender, now⟩] ∧
      (s.cancelBookingInteractive t now).1.waiting = ws ∧
      (s.cancelBookingInteractive t now).1.waiting.length + 1 = s.waiting.length ∧
      (s.cancelBookingInteractive t now).1.confirmed.length = s.confirmed.length ∧
      (s.cancelBookingInteractive t now).1.nextTicketNo = s.nextTicketNo ∧
      (s.cancelBookingInteractive t now).1.TOTAL_SEATS = s.TOTAL_SEATS ∧
      (s.cancelBookingInteractive t now).2 =
        CancelOutcome.cancelledConfirmed t p.name (some w.ticketNo) := by
  rcases ReservationSystem.findConfirmedLoop_spec t s.confirmed 0 with
    ⟨hall, _⟩ | ⟨pre, p, post, hl, hpre, hp, _⟩
  · obtain ⟨p, hp, hpt⟩ := hmem
    exact absurd hpt (hall p hp)
  · obtain ⟨w, ws, hws⟩ := List.exists_cons_of_ne_nil hw
    have hpl : (pre.length : Int) ≤ INT_MAX := by
      rw [hl] at hsize
      simp only [List.length_append, List.length_cons] at hsize
      push_cast at hsize
      omega
    have h := ReservationSystem.cancel_confirmed_eq s t now pre post p hl hpre hp hpl
    rw [hws] at h
    refine ⟨pre, p, post, w, ws, hl, hpre, hp, hws, ?_, ?_, ?_, ?_, ?_, ?_, ?_⟩
    · rw [h]
    · rw [h]
    · rw [h, hws]; simp
    · rw [h, hl]; simp
    · rw [h]
    · rw [h]
    · rw [h, hp]

/-- Witness of C5: ticket 1 of the sample ledger is cancelled, ticket 3 is promoted. -/
theorem C5_cancel_confirmed_promotes_head_witness :
    ∃ pre p post w ws,
      demoLedger.confirmed = pre ++ p :: post ∧ (∀ q ∈ pre, q.ticketNo ≠ 1) ∧ p.ticketNo = 1 ∧
      demoLedger.waiting = w :: ws ∧
      (demoLedger.cancelBookingInteractive 1 ['n']).1.confirmed =
        pre ++ post ++ [⟨w.ticketNo, w.name, w.age, w.gender, ['n']⟩] ∧
      (demoLedger.cancelBookingInteractive 1 ['n']).1.waiting = ws ∧
      (demoLedger.cancelBookingInteractive 1 ['n']).1.waiting.length + 1 =
        demoLedger.waiting.length ∧
      (demoLedger.cancelBookingInteractive 1 ['n']).1.confirmed.length =
        demoLedger.confirmed.length ∧
      (demoLedger.cancelBookingInteractive 1 ['n']).1.nextTicketNo = demoLedger.nextTicketNo ∧
      (demoLedger.cancelBookingInteractive 1 ['n']).1.TOTAL_SEATS = demoLedger.TOTAL_SEATS ∧
      (demoLedger.cancelBookingInteractive 1 ['n']).2 =
        CancelOutcome.cancelledConfirmed 1 p.name (some w.ticketNo) :=
  C5_cancel_confirmed_promotes_head demoLedger 1 ['n']
    ⟨⟨1, ['A', 'l'], 30, ['F'], ['t', '1']⟩, by decide, rfl⟩ (by decide) (by decide)

/-- C6: in every ledger state (with a `confirmed` vector whose size fits an `int`)
where ticket `t` occurs in `confirmed` and `waiting` is empty, cancel(t) erases the
first confirmed entry with ticket `t` and keeps all other confirmed entries
unmodified in their order, so `confirmed.length` drops by exactly 1; nothing is
promoted, `waiting` stays empty and `nextTicketNo` is unchanged. -/
theorem C6_cancel_confirmed_no_promotion (s : ReservationSystem) (t : Int) (now : Str)
    (hmem : ∃ p ∈ s.confirmed, p.ticketNo = t) (hw : s.waiting = [])
    (hsize : (s.confirmed.length : Int) ≤ INT_MAX) :
    ∃ pre p post,
      s.confirmed = pre ++ p :: post ∧ (∀ q ∈ pre, q.ticketNo ≠ t) ∧ p.ticketNo = t ∧
      (s.cancelBookingInteractive t now).1.confirmed = pre ++ post ∧
      (s.cancelBookingInteractive t now).1.confirmed.length + 1 = s.confirmed.length ∧
      (s.cancelBookingInteractive t now).1.waiting = [] ∧
      (s.cancelBookingInteractive t now).1.nextTicketNo = s.nextTicketNo ∧
      (s.cancelBookingInteractive t now).1.TOTAL_SEATS = s.TOTAL_SEATS ∧
      (s.cancelBookingInteractive t now).2 = CancelOutcome.cancelledConfirmed t p.name none := by
  rcases ReservationSystem.findConfirmedLoop_spec t s.confirmed 0 with
    ⟨hall, _⟩ | ⟨pre, p, post, hl, hpre, hp, _⟩
  · obtain ⟨p, hp, hpt⟩ := hmem
    exact absurd hpt (hall p hp)
  · have hpl : (pre.length : Int) ≤ INT_MAX := by
      rw [hl] at hsize
      simp only [List.length_append, List.length_cons] at hsize
      push_cast at hsize
      omega
    have h := ReservationSystem.cancel_confirmed_eq s t now pre post p hl hpre hp hpl
    rw [hw] at h
    refine ⟨pre, p, post, hl, hpre, hp, ?_, ?_, ?_, ?_, ?_, ?_⟩
    · rw [h]
    · rw [h, hl]; simp; omega
    · rw [h]
    · rw [h]
    · rw [h]
    · rw [h, hp]

/-- Witness of C6: ticket 2 of the sample ledger without a waiting list is cancelled. -/
theorem C6_cancel_confirmed_no_promotion_witness :
    ∃ pre p post,
      demoLedgerNoWait.confirmed = pre ++ p :: post ∧ (∀ q ∈ pre, q.ticketNo ≠ 2) ∧
      p.ticketNo = 2 ∧
      (demoLedgerNoWait.cancelBookingInteractive 2 ['n']).1.confirmed = pre ++ post ∧
      (demoLedgerNoWait.cancelBookingInteractive 2 ['n']).1.confirmed.length + 1 =
        demoLedgerNoWait.confirmed.length ∧
      (demoLedgerNoWait.cancelBookingInteractive 2 ['n']).1.waiting = [] ∧
      (demoLedgerNoWait.cancelBookingInteractive 2 ['n']).1.nextTicketNo =
        demoLedgerNoWait.nextTicketNo ∧
      (demoLedgerNoWait.cancelBookingInteractive 2 ['n']).1.TOTAL_SEATS =
        demoLedgerNoWait.TOTAL_SEATS ∧
      (demoLedgerNoWait.cancelBookingInteractive 2 ['n']).2 =
        CancelOutcome.cancelledConfirmed 2 p.name none :=
  C6_cancel_confirmed_no_promotion demoLedgerNoWait 2 ['n']
    ⟨⟨2, ['B', 'o'], 25, ['M'], ['t', '2']⟩, by decide, rfl⟩ rfl (by decide)

/-- C7: in every ledger state whose waiting-list ticket numbers are pairwise
distinct, for a ticket `t` that is not in `confirmed` but is in `waiting`, cancel(t)
reports the waiting-list removal and changes nothing but `waiting`, which becomes
the old sequence with the one entry holding ticket `t` deleted (wherever it stands),
all other entries unmodified and in their order; nothing is promoted. -/
theorem C7_cancel_waiting_removes_one (s : ReservationSystem) (t : Int) (now : Str)
    (hnodup : (s.waiting.map Passenger.ticketNo).Nodup)
    (hconf : ∀ q ∈ s.confirmed, q.ticketNo ≠ t) (hmem : ∃ p ∈ s.waiting, p.ticketNo = t) :
    ∃ pre p post,
      s.waiting = pre ++ p :: post ∧ p.ticketNo = t ∧
      (∀ q ∈ pre ++ post, q.ticketNo ≠ t) ∧
      (s.cancelBookingInteractive t now).1 = { s with waiting := pre ++ post } ∧
      (s.cancelBookingInteractive t now).2 = CancelOutcome.removedFromWaiting t := by
  obtain ⟨p, hp, hpt⟩ := hmem
  obtain ⟨pre, post, hsplit⟩ := List.append_of_mem hp
  have hothers : ∀ q ∈ pre ++ post, q.ticketNo ≠ t := by
    rw [hsplit, List.map_append, List.map_cons] at hnodup
    have hnd := List.nodup_middle.1 hnodup
    intro q hq heq
    apply (List.nodup_cons.1 hnd).1
    rw [hpt, ← heq, ← List.map_append]
    exact List.mem_map_of_mem _ hq
  have hfilter : s.waiting.filter (fun q => decide (q.ticketNo ≠ t)) = pre ++ post := by
    rw [hsplit, List.filter_append, List.filter_cons_of_neg (by simpa using hpt),
      ← List.filter_append]
    exact List.filter_eq_self.2 (fun q hq => by simpa using hothers q hq)
  have hany : s.waiting.any (fun q => decide (q.ticketNo = t)) = true :=
    List.any_eq_true.2 ⟨p, hp, by simpa using hpt⟩
  have h := ReservationSystem.cancel_waiting_eq s t now hconf
  rw [hfilter, hany] at h
  exact ⟨pre, p, post, hsplit, hpt, hothers, by rw [h], by rw [h]; rfl⟩

/-- Witness of C7: ticket 4, the second entry of the sample waiting list, is cancelled. -/
theorem C7_cancel_waiting_removes_one_witness :
    ∃ pre p post,
      demoLedger.waiting = pre ++ p :: post ∧ p.ticketNo = 4 ∧
      (∀ q ∈ pre ++ post, q.ticketNo ≠ 4) ∧
      (demoLedger.cancelBookingInteractive 4 ['n']).1 =
        { demoLedger with waiting := pre ++ post } ∧
      (demoLedger.cancelBookingInteractive 4 ['n']).2 = CancelOutcome.removedFromWaiting 4 :=
  C7_cancel_waiting_removes_one demoLedger 4 ['n'] (by decide) (by decide)
    ⟨⟨4, ['D', ','], 41, ['O'], ['t', '4']⟩, by decide, rfl⟩

/-- C8: in every ledger state, for a ticket `t` that occurs neither in `confirmed`
nor in `waiting`, cancel(t) reports that the ticket was not found and the state
afterwards is the state before: same `confirmed`, same `waiting` in the same order,
same `nextTicketNo`. -/
theorem C8_cancel_unknown_ticket (s : ReservationSystem) (t : Int) (now : Str)
    (hconf : ∀ q ∈ s.confirmed, q.ticketNo ≠ t) (hwait : ∀ q ∈ s.waiting, q.ticketNo ≠ t) :
    s.cancelBookingInteractive t now = (s, CancelOutcome.notFound) := by
  have hfilter : s.waiting.filter (fun q => decide (q.ticketNo ≠ t)) = s.waiting :=
    List.filter_eq_self.2 (fun q hq => by simpa using hwait q hq)
  have hany : s.waiting.any (fun q => decide (q.ticketNo = t)) = false := by
    rw [List.any_eq_false]
    intro q hq
    simpa using hwait q hq
  rw [ReservationSystem.cancel_waiting_eq s t now hconf, hfilter, hany]
  rfl

/-- Witness of C8: ticket 99 is not in the sample ledger. -/
theorem C8_cancel_unknown_ticket_witness :
    demoLedger.cancelBookingInteractive 99 ['n'] = (demoLedger, CancelOutcome.notFound) :=
  C8_cancel_unknown_ticket demoLedger 99 ['n'] (by decide) (by decide)

/-- C9: for every ledger state reached from the empty ledger by book and cancel
actions on console input (names may contain `,` and `"`), with the ticket counter
still a `long long`, saving the state and then constructing a fresh ledger of any
capacity from the two written files gives a `confirmed` sequence and a `waiting`
sequence equal to the saved ones: same order, same ticket number, name, age, gender
and `bookedAt` for every passenger. The counter of the fresh ledger is 1. -/
theorem C9_save_load_roundtrip (c c2 : Int) (ops : List Op)
    (hin : ∀ op ∈ ops, op.ConsoleInput)
    (hctr : ((ReservationSystem.init c).run ops).nextTicketNo ≤ LLONG_MAX) :
    ReservationSystem.create c2
        (some ((ReservationSystem.init c).run ops).saveData.1)
        (some ((ReservationSystem.init c).run ops).saveData.2) =
      some { TOTAL_SEATS := c2,
             confirmed := ((ReservationSystem.init c).run ops).confirmed,
             waiting := ((ReservationSystem.init c).run ops).waiting,
             nextTicketNo := 1 } := by
  obtain ⟨_, hall⟩ := ReservationSystem.run_recordInv ops _ (ReservationSystem.init_recordInv c) hin
  have hrange : ∀ p ∈ ((ReservationSystem.init c).run ops).confirmed ++
      ((ReservationSystem.init c).run ops).waiting, p.InRange := by
    intro p hp
    obtain ⟨a1, a2, a3, a4, _⟩ := hall p hp
    refine ⟨?_, ?_, a3, a4⟩
    · unfold LLONG_MIN; omega
    · omega
  have hline : ∀ p ∈ ((ReservationSystem.init c).run ops).confirmed ++
      ((ReservationSystem.init c).run ops).waiting, p.OneLine :=
    fun p hp => (hall p hp).2.2.2.2
  have hc := ReservationSystem.loadLoop_writeLines ((ReservationSystem.init c).run ops).confirmed []
    (fun p hp => hrange p (List.mem_append_left _ hp))
    (fun p hp => hline p (List.mem_append_left _ hp))
  have hw := ReservationSystem.loadLoop_writeLines ((ReservationSystem.init c).run ops).waiting []
    (fun p hp => hrange p (List.mem_append_right _ hp))
    (fun p hp => hline p (List.mem_append_right _ hp))
  have e1 : (ReservationSystem.init c2).confirmed = [] := rfl
  have e2 : (ReservationSystem.init c2).waiting = [] := rfl
  simp only [ReservationSystem.create, ReservationSystem.loadData, ReservationSystem.saveData,
    e1, e2, hc, hw, Option.some_bind, List.nil_append]
  rfl

/-- Witness of C9: the sample run, whose first name contains a comma and a quote. -/
theorem C9_save_load_roundtrip_witness :
    ReservationSystem.create 5
        (some ((ReservationSystem.init 1).run demoOps).saveData.1)
        (some ((ReservationSystem.init 1).run demoOps).saveData.2) =
      some { TOTAL_SEATS := 5,
             confirmed := ((ReservationSystem.init 1).run demoOps).confirmed,
             waiting := ((ReservationSystem.init 1).run demoOps).waiting,
             nextTicketNo := 1 } :=
  C9_save_load_roundtrip 1 5 demoOps (by decide) (by decide)

/-- C10: for every passenger whose ticket number is a `long long` and whose age is an
`int`, with arbitrary name, gender and timestamp (commas and double quotes
included), `fromCSV (toCSV p) = p`. `esc` wraps a field in double quotes exactly
when it contains `,` or `"`, with every `"` in it doubled, and leaves it as it is
otherwise; the scanner of `fromCSV` reads an escaped field back as the field. -/
theorem C10_fromCSV_toCSV (p : Passenger) (h1 : LLONG_MIN ≤ p.ticketNo)
    (h2 : p.ticketNo ≤ LLONG_MAX) (h3 : INT_MIN ≤ p.age) (h4 : p.age ≤ INT_MAX) :
    Passenger.fromCSV p.toCSV = some p ∧
      (∀ s : Str, Passenger.esc s =
        if ',' ∈ s ∨ '"' ∈ s then '"' :: (Passenger.doubleQuotes s ++ ['"']) else s) ∧
      (∀ s : Str, Passenger.splitFields (Passenger.esc s) [] [] false = [s]) := by
  refine ⟨Passenger.fromCSV_toCSV p h1 h2 h3 h4, Passenger.esc_eq, ?_⟩
  intro s
  have h := Passenger.splitFields_esc s [] [] [] (fun d rest e => by cases e)
  rw [List.append_nil] at h
  rw [h, Passenger.splitFields.eq_1]
  rfl

/-- Witness of C10: a passenger whose name contains a comma and two quotes. -/
theorem C10_fromCSV_toCSV_witness :
    Passenger.fromCSV (Passenger.toCSV ⟨-12, ['a', ',', '"', 'b', '"'], 30, ['F'], ['t', ' ', '1']⟩) =
        some ⟨-12, ['a', ',', '"', 'b', '"'], 30, ['F'], ['t', ' ', '1']⟩ ∧
      (∀ s : Str, Passenger.esc s =
        if ',' ∈ s ∨ '"' ∈ s then '"' :: (Passenger.doubleQuotes s ++ ['"']) else s) ∧
      (∀ s : Str, Passenger.splitFields (Passenger.esc s) [] [] false = [s]) :=
  C10_fromCSV_toCSV ⟨-12, ['a', ',', '"', 'b', '"'], 30, ['F'], ['t', ' ', '1']⟩
    (by decide) (by decide) (by decide) (by decide)

/-- C11 (the code breaks it): a ledger constructed from the files a previous run
wrote has the saved passenger with ticket 1 in `confirmed`, but its counter is 1
again, not above the loaded ticket; the next booking is given ticket 1 a second
time, and the ledger then holds two passengers with ticket 1. -/
theorem C11_counter_not_restored :
    demoPreviousRun.saveData = (demoConfirmedFile, []) ∧
      ∃ s, ReservationSystem.create 2 (some demoPreviousRun.saveData.1)
          (some demoPreviousRun.saveData.2) = some s ∧
        s.confirmed.map Passenger.ticketNo = [1] ∧ s.waiting = [] ∧ s.nextTicketNo = 1 ∧
        (s.bookSeatInteractive ['B', 'o'] 25 ['M'] ['t', '2']).2 = BookOutcome.seatConfirmed 1 ∧
        (s.bookSeatInteractive ['B', 'o'] 25 ['M'] ['t', '2']).1.confirmed.map Passenger.ticketNo
          = [1, 1] := by
  refine ⟨by decide, ⟨2, demoPreviousRun.confirmed, [], 1⟩, ?_, ?_, ?_, ?_, ?_, ?_⟩ <;> decide

/-- C12 as stated fails: loading into the sample ledger, which already holds two
waiting passengers, a waiting stream with the one record of ticket 7 leaves three
waiting passengers, not just the parsed record. -/
theorem C12_load_replaces_counterexample :
    ReservationSystem.parseRecords demoWaitingFile =
        some [⟨7, ['Z', 'e', 'd'], 41, ['O'], ['t', '7']⟩] ∧
      ∃ s, demoLedger.loadData (some []) (some demoWaitingFile) = some s ∧
        s.waiting = demoLedger.waiting ++ [⟨7, ['Z', 'e', 'd'], 41, ['O'], ['t', '7']⟩] ∧
        s.waiting ≠ [⟨7, ['Z', 'e', 'd'], 41, ['O'], ['t', '7']⟩] ∧
        s.confirmed = demoLedger.confirmed ∧ s.confirmed ≠ [] := by
  refine ⟨by decide, ⟨2, demoLedger.confirmed,
    demoLedger.waiting ++ [⟨7, ['Z', 'e', 'd'], 41, ['O'], ['t', '7']⟩], 5⟩, ?_, ?_, ?_, ?_, ?_⟩ <;>
    decide

/-- C12, amended: for every in-memory ledger state and every pair of streams, each
given by its lines (full lines ended by a line feed, then a last line without one,
possibly empty), whose non-empty lines all parse with `fromCSV`: after `loadData`
the `confirmed` sequence is the previous one followed by the records of the
non-empty lines of the confirmed stream, in stream order, and the `waiting` sequence
is the previous one followed by the records of the non-empty lines of the waiting
stream, in stream order; so the constructor, which loads into empty collections,
ends with exactly those records. -/
theorem C12_load_appends (s : ReservationSystem) (confLines : List Str) (confLast : Str)
    (waitLines : List Str) (waitLast : Str) (a b : List Passenger)
    (hcl : ∀ l ∈ confLines ++ [confLast], '\n' ∉ l)
    (hwl : ∀ l ∈ waitLines ++ [waitLast], '\n' ∉ l)
    (ha : List.Forall₂ (fun l p => Passenger.fromCSV l = some p)
      ((confLines ++ [confLast]).filter (fun l => decide (l ≠ []))) a)
    (hb : List.Forall₂ (fun l p => Passenger.fromCSV l = some p)
      ((waitLines ++ [waitLast]).filter (fun l => decide (l ≠ []))) b) :
    s.loadData (some (linesText confLines ++ confLast))
        (some (linesText waitLines ++ waitLast)) =
        some { s with confirmed := s.confirmed ++ a, waiting := s.waiting ++ b } ∧
      ∀ c : Int, ReservationSystem.create c (some (linesText confLines ++ confLast))
          (some (linesText waitLines ++ waitLast)) =
        some { TOTAL_SEATS := c, confirmed := a, waiting := b, nextTicketNo := 1 } := by
  have key : ∀ s0 : ReservationSystem,
      s0.loadData (some (linesText confLines ++ confLast))
        (some (linesText waitLines ++ waitLast)) =
      some { s0 with confirmed := s0.confirmed ++ a, waiting := s0.waiting ++ b } := by
    intro s0
    simp only [ReservationSystem.loadData]
    rw [ReservationSystem.loadLoop_linesText confLines confLast a s0.confirmed hcl ha,
      ReservationSystem.loadLoop_linesText waitLines waitLast b s0.waiting hwl hb]
    rfl
  refine ⟨key s, ?_⟩
  intro c
  rw [ReservationSystem.create, key]
  rfl

/-- Witness of C12: the sample ledger, a confirmed stream of two records with an
empty line between them, and a waiting stream of two records whose last line has no
line feed; the constructor on the same two streams is evaluated as well. -/
theorem C12_load_appends_witness :
    linesText ["1,Al,30,F,t1".toList, [], "2,Bo,25,M,t2".toList] ++ [] =
        "1,Al,30,F,t1\n\n2,Bo,25,M,t2\n".toList ∧
      linesText ["7,Zed,41,O,t7".toList] ++ "8,Yo,20,F,t8".toList =
        "7,Zed,41,O,t7\n8,Yo,20,F,t8".toList ∧
      (demoLedger.loadData
          (some (linesText ["1,Al,30,F,t1".toList, [], "2,Bo,25,M,t2".toList] ++ []))
          (some (linesText ["7,Zed,41,O,t7".toList] ++ "8,Yo,20,F,t8".toList)) =
        some { demoLedger with
          confirmed := demoLedger.confirmed ++
            [⟨1, ['A', 'l'], 30, ['F'], ['t', '1']⟩, ⟨2, ['B', 'o'], 25, ['M'], ['t', '2']⟩],
          waiting := demoLedger.waiting ++
            [⟨7, ['Z', 'e', 'd'], 41, ['O'], ['t', '7']⟩,
              ⟨8, ['Y', 'o'], 20, ['F'], ['t', '8']⟩] } ∧
      ∀ c : Int, ReservationSystem.create c
          (some (linesText ["1,Al,30,F,t1".toList, [], "2,Bo,25,M,t2".toList] ++ []))
          (some (linesText ["7,Zed,41,O,t7".toList] ++ "8,Yo,20,F,t8".toList)) =
        some { TOTAL_SEATS := c,
               confirmed :=
                 [⟨1, ['A', 'l'], 30, ['F'], ['t', '1']⟩, ⟨2, ['B', 'o'], 25, ['M'], ['t', '2']⟩],
               waiting :=
                 [⟨7, ['Z', 'e', 'd'], 41, ['O'], ['t', '7']⟩,
                   ⟨8, ['Y', 'o'], 20, ['F'], ['t', '8']⟩],
               nextTicketNo := 1 }) ∧
      ReservationSystem.create 3 (some "1,Al,30,F,t1\n\n2,Bo,25,M,t2\n".toList)
          (some "7,Zed,41,O,t7\n8,Yo,20,F,t8".toList) =
        some { TOTAL_SEATS := 3,
               confirmed :=
                 [⟨1, ['A', 'l'], 30, ['F'], ['t', '1']⟩, ⟨2, ['B', 'o'], 25, ['M'], ['t', '2']⟩],
               waiting :=
                 [⟨7, ['Z', 'e', 'd'], 41, ['O'], ['t', '7']⟩,
                   ⟨8, ['Y', 'o'], 20, ['F'], ['t', '8']⟩],
               nextTicketNo := 1 } :=
  ⟨by decide, by decide,
    C12_load_appends demoLedger ["1,Al,30,F,t1".toList, [], "2,Bo,25,M,t2".toList] []
      ["7,Zed,41,O,t7".toList] "8,Yo,20,F,t8".toList
      [⟨1, ['A', 'l'], 30, ['F'], ['t', '1']⟩, ⟨2, ['B', 'o'], 25, ['M'], ['t', '2']⟩]
      [⟨7, ['Z', 'e', 'd'], 41, ['O'], ['t', '7']⟩, ⟨8, ['Y', 'o'], 20, ['F'], ['t', '8']⟩]
      (by decide) (by decide)
      (List.Forall₂.cons (by decide) (List.Forall₂.cons (by decide) List.Forall₂.nil))
      (List.Forall₂.cons (by decide) (List.Forall₂.cons (by decide) List.Forall₂.nil)),
    by decide⟩

/-- C13: for every record line with `k` fields, `1 <= k < 5` (the line is the texts
of the fields `fs` separated by commas, each field written plainly or in double
quotes), whose ticket field is read by `stoll` as `t` and, when `k >= 3`, whose age
field is read by `stoi` as `a`, `fromCSV` returns the passenger with ticket `t`, the
second field as name when `k >= 2`, age `a` when `k >= 3`, the fourth field as
gender when `k = 4`, and the defaults for the missing trailing fields: age `0` and
the empty string for name, gender and `bookedAt`. A ticket field that is the decimal
text of a `long long` is read as that number, an age field that is the decimal text
of an `int` as that number. -/
theorem C13_fromCSV_missing_fields (es fs : List Str) (t a : Int)
    (henc : List.Forall₂ FieldText es fs)
    (hk1 : 1 ≤ fs.length) (hk5 : fs.length < 5)
    (ht : stoll (fs.getD 0 []) = some t)
    (ha : 3 ≤ fs.length → stoi (fs.getD 2 []) = some a) :
    Passenger.fromCSV (joinFields es) = some
      { ticketNo := t,
        name := if 2 ≤ fs.length then fs.getD 1 [] else [],
        age := if 3 ≤ fs.length then a else 0,
        gender := if 4 ≤ fs.length then fs.getD 3 [] else [],
        bookedAt := [] } ∧
      (∀ v : Int, LLONG_MIN ≤ v → v ≤ LLONG_MAX → fs.getD 0 [] = to_string v → t = v) ∧
      (∀ w : Int, 3 ≤ fs.length → INT_MIN ≤ w → w ≤ INT_MAX → fs.getD 2 [] = to_string w →
        a = w) := by
  have hes : es ≠ [] := by
    intro he
    rw [he] at henc
    cases henc
    simp at hk1
  have hsplit : Passenger.splitFields (joinFields es) [] [] false = fs := by
    rw [Passenger.splitFields_joinFields es fs henc hes []]
    rfl
  have h5 : ¬ 5 ≤ fs.length := by omega
  refine ⟨?_, ?_, ?_⟩
  · unfold Passenger.fromCSV
    rw [hsplit]
    simp only [hk1, if_true, ht, Option.map_some', Option.some_bind, h5, if_false]
    by_cases h3 : 3 ≤ fs.length
    · have h2 : 2 ≤ fs.length := by omega
      simp only [h3, h2, if_true, ha h3, Option.map_some', Option.some_bind]
      split <;> rfl
    · have h4 : ¬ 4 ≤ fs.length := by omega
      simp only [h3, h4, if_false, Option.some_bind]
      split <;> rfl
  · intro v hv1 hv2 hv
    rw [hv, stoll_to_string v hv1 hv2] at ht
    exact (Option.some.inj ht).symm
  · intro w h3 hw1 hw2 hw
    have h := ha h3
    rw [hw, stoi_to_string w hw1 hw2] at h
    exact (Option.some.inj h).symm

/-- Witness of C13: the line `7,"Al, Jr",30` has three fields, the second one
written in double quotes; the passenger has ticket 7, name `Al, Jr`, age 30 and an
empty gender and timestamp. Lines with four, two and one field are evaluated as
well. -/
theorem C13_fromCSV_missing_fields_witness :
    joinFields ["7".toList, "\"Al, Jr\"".toList, "30".toList] = "7,\"Al, Jr\",30".toList ∧
      Passenger.fromCSV "7,\"Al, Jr\",30".toList =
        some ⟨7, "Al, Jr".toList, 30, [], []⟩ ∧
      Passenger.fromCSV "7,Al,30,F".toList = some ⟨7, "Al".toList, 30, ['F'], []⟩ ∧
      Passenger.fromCSV "7,Al".toList = some ⟨7, "Al".toList, 0, [], []⟩ ∧
      Passenger.fromCSV "7".toList = some ⟨7, [], 0, [], []⟩ :=
  ⟨by decide,
    (C13_fromCSV_missing_fields ["7".toList, "\"Al, Jr\"".toList, "30".toList]
      ["7".toList, "Al, Jr".toList, "30".toList] 7 30
      (List.Forall₂.cons (Or.inl ⟨rfl, by decide, by decide⟩)
        (List.Forall₂.cons (Or.inr (by decide))
          (List.Forall₂.cons (Or.inl ⟨rfl, by decide, by decide⟩) List.Forall₂.nil)))
      (by decide) (by decide) (by decide) (by decide)).1,
    by decide, by decide, by decide⟩

/-- C14 (the code breaks it): on a confirmed stream whose first line has the ticket
field `x`, `stoll` throws inside `fromCSV`, the exception leaves `loadData` and the
constructor, and nothing is loaded; the second line of the stream, which parses on
its own, is not loaded either. -/
theorem C14_malformed_record_aborts_load :
    Passenger.fromCSV "x,Al,30,F,t1".toList = none ∧
      Passenger.fromCSV "2,Bo,25,M,t2".toList = some ⟨2, ['B', 'o'], 25, ['M'], ['t', '2']⟩ ∧
      getlines demoBrokenFile [] = ["x,Al,30,F,t1".toList, "2,Bo,25,M,t2".toList] ∧
      (ReservationSystem.init 10).loadData (some demoBrokenFile) none = none ∧
      ReservationSystem.create 10 (some demoBrokenFile) none = none := by
  refine ⟨?_, ?_, ?_, ?_, ?_⟩ <;> decide

/-- C15: in every state reached from the empty ledger (capacity an `int`) by book and
cancel actions in which `confirmed.length >= capacity`, a valid book leaves
`confirmed` unchanged, appends the new passenger at the tail of `waiting`, and
reports the position `waitingPosition` computes for the new ticket, which is the
new `waiting.length`, the 1-based index of the new passenger in `waiting`. -/
theorem C15_waitlisted_position (c : Int) (hmax : c ≤ INT_MAX) (ops : List Op)
    (s : ReservationSystem) (hs : s = (ReservationSystem.init c).run ops)
    (nameLine : Str) (age : Int) (gender now : Str)
    (hn : ReservationSystem.trim nameLine ≠ []) (hfull : c ≤ (s.confirmed.length : Int)) :
    (s.bookSeatInteractive nameLine age gender now).1.confirmed = s.confirmed ∧
      (s.bookSeatInteractive nameLine age gender now).1.waiting =
        s.waiting ++ [⟨s.nextTicketNo, ReservationSystem.trim nameLine, age, gender, now⟩] ∧
      (s.bookSeatInteractive nameLine age gender now).2 =
        BookOutcome.waitlisted s.nextTicketNo
          ((s.bookSeatInteractive nameLine age gender now).1.waitingPosition s.nextTicketNo) ∧
      (s.bookSeatInteractive nameLine age gender now).1.waitingPosition s.nextTicketNo =
        ((s.bookSeatInteractive nameLine age gender now).1.waiting.length : Int) ∧
      (s.bookSeatInteractive nameLine age gender now).1.waiting.get?
          ((s.bookSeatInteractive nameLine age gender now).1.waiting.length - 1) =
        some ⟨s.nextTicketNo, ReservationSystem.trim nameLine, age, gender, now⟩ := by
  have hseat : ReservationSystem.SeatInv c s := hs ▸ ReservationSystem.run_seatInv c hmax ops
  have hticket : ReservationSystem.TicketInv s := hs ▸ ReservationSystem.run_ticketInv c ops
  obtain ⟨hcap, hlen, _⟩ := hseat
  have hlenmax : (s.confirmed.length : Int) ≤ INT_MAX := by
    unfold INT_MAX at hmax ⊢
    omega
  have hnot : ¬ castInt s.confirmed.length < s.TOTAL_SEATS := by
    rw [ReservationSystem.castInt_of_le hlenmax, hcap]
    omega
  have hpos : ReservationSystem.waitingPositionLoop s.nextTicketNo
      (s.waiting ++ [⟨s.nextTicketNo, ReservationSystem.trim nameLine, age, gender, now⟩]) 1 =
      1 + (s.waiting.length : Int) := by
    have hpre : ∀ q ∈ s.waiting, q.ticketNo ≠ s.nextTicketNo := by
      intro q hq heq
      have hlt := hticket.2 q.ticketNo
        (List.mem_map_of_mem _ (List.mem_append_right _ hq))
      omega
    exact @ReservationSystem.waitingPositionLoop_first s.nextTicketNo s.waiting []
      ⟨s.nextTicketNo, ReservationSystem.trim nameLine, age, gender, now⟩ hpre rfl 1
  rw [ReservationSystem.book_eq s _ _ _ _ hn, if_neg hnot]
  refine ⟨rfl, rfl, rfl, ?_, ?_⟩
  · simp only [ReservationSystem.waitingPosition, hpos, List.length_append, List.length_singleton]
    push_cast
    omega
  · simp

/-- Witness of C15: at capacity 1, after one booking, the next one is waitlisted at
position 1. -/
theorem C15_waitlisted_position_witness :
    (((ReservationSystem.init 1).run [Op.book ['A'] 30 ['F'] ['x']]).bookSeatInteractive
        ['B'] 25 ['M'] ['y']).1.confirmed =
        ((ReservationSystem.init 1).run [Op.book ['A'] 30 ['F'] ['x']]).confirmed ∧
      (((ReservationSystem.init 1).run [Op.book ['A'] 30 ['F'] ['x']]).bookSeatInteractive
        ['B'] 25 ['M'] ['y']).1.waiting = [] ++ [⟨2, ['B'], 25, ['M'], ['y']⟩] ∧
      (((ReservationSystem.init 1).run [Op.book ['A'] 30 ['F'] ['x']]).bookSeatInteractive
        ['B'] 25 ['M'] ['y']).2 = BookOutcome.waitlisted 2 1 ∧
      (((ReservationSystem.init 1).run [Op.book ['A'] 30 ['F'] ['x']]).bookSeatInteractive
        ['B'] 25 ['M'] ['y']).1.waitingPosition 2 = ((1 : Nat) : Int) ∧
      (((ReservationSystem.init 1).run [Op.book ['A'] 30 ['F'] ['x']]).bookSeatInteractive
        ['B'] 25 ['M'] ['y']).1.waiting.get? (1 - 1) = some ⟨2, ['B'], 25, ['M'], ['y']⟩ :=
  C15_waitlisted_position 1 (by decide) [Op.book ['A'] 30 ['F'] ['x']] _ rfl
    ['B'] 25 ['M'] ['y'] (by decide) (by decide)

/-- C16: for every waiting sequence and every ticket `t`, `waitingPosition` returns
`k >= 1` exactly when the `k`-th entry of `waiting` counted from the head has ticket
`t` and no earlier entry has it, and returns `-1` exactly when no entry of `waiting`
has ticket `t`; the result is always `-1` or between 1 and `waiting.length`. The
query scans a copy of the queue and yields only the position. -/
theorem C16_waitingPosition_spec (s : ReservationSystem) (t : Int) :
    (∀ k : Nat, 1 ≤ k →
      (s.waitingPosition t = (k : Int) ↔
        ∃ p, s.waiting.get? (k - 1) = some p ∧ p.ticketNo = t ∧
          ∀ j q, j < k - 1 → s.waiting.get? j = some q → q.ticketNo ≠ t)) ∧
      (s.waitingPosition t = -1 ↔ ∀ q ∈ s.waiting, q.ticketNo ≠ t) ∧
      (s.waitingPosition t = -1 ∨
        (1 ≤ s.waitingPosition t ∧ s.waitingPosition t ≤ (s.waiting.length : Int))) := by
  unfold ReservationSystem.waitingPosition
  rcases ReservationSystem.waitingPositionLoop_spec t s.waiting 1 with
    ⟨hall, hres⟩ | ⟨pre, p, post, hl, hpre, hp, hres⟩
  · refine ⟨?_, ?_, Or.inl hres⟩
    · intro k hk
      rw [hres]
      constructor
      · intro h
        omega
      · rintro ⟨q, hq, hqt, _⟩
        exact absurd hqt (hall q (List.get?_mem hq))
    · rw [hres]
      exact ⟨fun _ => hall, fun _ => rfl⟩
  · have hget : s.waiting.get? pre.length = some p := by
      rw [hl, List.get?_eq_getElem?, List.getElem?_append_right (le_refl _)]
      simp
    have hgetpre : ∀ j q, j < pre.length → s.waiting.get? j = some q → q ∈ pre := by
      intro j q hj hq
      rw [hl, List.get?_eq_getElem?, List.getElem?_append_left hj] at hq
      exact List.getElem?_mem hq
    refine ⟨?_, ?_, Or.inr ?_⟩
    · intro k hk
      rw [hres]
      constructor
      · intro h
        have hk1 : k - 1 = pre.length := by omega
        rw [hk1]
        exact ⟨p, hget, hp, fun j q hj hq => hpre q (hgetpre j q hj hq)⟩
      · rintro ⟨q, hq, hqt, hearlier⟩
        have hk1 : k - 1 = pre.length := by
          rcases Nat.lt_trichotomy (k - 1) pre.length with h | h | h
          · exact absurd hqt (hpre q (hgetpre _ q h hq))
          · exact h
          · exact absurd hp (hearlier _ p h hget)
        omega
    · rw [hres]
      constructor
      · intro h
        omega
      · intro h
        exact absurd hp (h p (by rw [hl]; simp))
    · rw [hres, hl]
      simp only [List.length_append, List.length_cons]
      push_cast
      omega

/-- A use of C16 on the sample ledger: ticket 4 is at position 2 of the waiting
list. -/
theorem C16_waitingPosition_spec_witness :
    demoLedger.waitingPosition 4 = ((2 : Nat) : Int) ↔
      ∃ p, demoLedger.waiting.get? (2 - 1) = some p ∧ p.ticketNo = 4 ∧
        ∀ j q, j < 2 - 1 → demoLedger.waiting.get? j = some q → q.ticketNo ≠ 4 :=
  (C16_waitingPosition_spec demoLedger 4).1 2 (by decide)

/-- C17: the scenario at capacity 2. Booking Alice (30, F), Bob (25, M) and Carol
(40, F) in that order gives tickets 1 and 2 confirmed and Carol waiting with ticket 3
at reported position 1; cancel(1) then leaves Bob and Carol confirmed (Carol
promoted with ticket 3 and the timestamp of the promotion) and nobody waiting;
cancel(99) then reports that the ticket was not found and changes nothing. -/
theorem C17_scenario (t1 t2 t3 t4 t5 : Str) :
    (ReservationSystem.init 2).bookAll
        [⟨"Alice".toList, 30, ['F'], t1⟩, ⟨"Bob".toList, 25, ['M'], t2⟩,
          ⟨"Carol".toList, 40, ['F'], t3⟩] =
      (⟨2, [⟨1, "Alice".toList, 30, ['F'], t1⟩, ⟨2, "Bob".toList, 25, ['M'], t2⟩],
          [⟨3, "Carol".toList, 40, ['F'], t3⟩], 4⟩,
        [BookOutcome.seatConfirmed 1, BookOutcome.seatConfirmed 2,
          BookOutcome.waitlisted 3 1]) ∧
      ReservationSystem.cancelBookingInteractive
        ⟨2, [⟨1, "Alice".toList, 30, ['F'], t1⟩, ⟨2, "Bob".toList, 25, ['M'], t2⟩],
          [⟨3, "Carol".toList, 40, ['F'], t3⟩], 4⟩ 1 t4 =
      (⟨2, [⟨2, "Bob".toList, 25, ['M'], t2⟩, ⟨3, "Carol".toList, 40, ['F'], t4⟩], [], 4⟩,
        CancelOutcome.cancelledConfirmed 1 "Alice".toList (some 3)) ∧
      ReservationSystem.cancelBookingInteractive
        ⟨2, [⟨2, "Bob".toList, 25, ['M'], t2⟩, ⟨3, "Carol".toList, 40, ['F'], t4⟩], [], 4⟩ 99 t5 =
      (⟨2, [⟨2, "Bob".toList, 25, ['M'], t2⟩, ⟨3, "Carol".toList, 40, ['F'], t4⟩], [], 4⟩,
        CancelOutcome.notFound) := by
  have ha : ReservationSystem.trim "Alice".toList = "Alice".toList := by decide
  have hb : ReservationSystem.trim "Bob".toList = "Bob".toList := by decide
  have hc : ReservationSystem.trim "Carol".toList = "Carol".toList := by decide
  have na : ReservationSystem.trim "Alice".toList ≠ [] := by decide
  have nb : ReservationSystem.trim "Bob".toList ≠ [] := by decide
  have nc : ReservationSystem.trim "Carol".toList ≠ [] := by decide
  have c0 : castInt 0 < (2 : Int) := by decide
  have c1 : castInt 1 < (2 : Int) := by decide
  have c2 : ¬ castInt 2 < (2 : Int) := by decide
  have h1 : (ReservationSystem.init 2).bookSeatInteractive "Alice".toList 30 ['F'] t1 =
      (⟨2, [⟨1, "Alice".toList, 30, ['F'], t1⟩], [], 2⟩, BookOutcome.seatConfirmed 1) := by
    rw [ReservationSystem.book_eq _ _ _ _ _ na, ha]
    exact if_pos c0
  have h2 : (⟨2, [⟨1, "Alice".toList, 30, ['F'], t1⟩], [], 2⟩ :
      ReservationSystem).bookSeatInteractive "Bob".toList 25 ['M'] t2 =
      (⟨2, [⟨1, "Alice".toList, 30, ['F'], t1⟩, ⟨2, "Bob".toList, 25, ['M'], t2⟩], [], 3⟩,
        BookOutcome.seatConfirmed 2) := by
    rw [ReservationSystem.book_eq _ _ _ _ _ nb, hb]
    exact if_pos c1
  have h3 : (⟨2, [⟨1, "Alice".toList, 30, ['F'], t1⟩, ⟨2, "Bob".toList, 25, ['M'], t2⟩], [], 3⟩ :
      ReservationSystem).bookSeatInteractive "Carol".toList 40 ['F'] t3 =
      (⟨2, [⟨1, "Alice".toList, 30, ['F'], t1⟩, ⟨2, "Bob".toList, 25, ['M'], t2⟩],
          [⟨3, "Carol".toList, 40, ['F'], t3⟩], 4⟩, BookOutcome.waitlisted 3 1) := by
    rw [ReservationSystem.book_eq _ _ _ _ _ nc, hc]
    exact if_neg c2
  refine ⟨?_, ?_, ?_⟩
  · simp only [ReservationSystem.bookAll, h1, h2, h3]
  · rfl
  · rfl

/-- C18: for every capacity `c >= 0`, in every state reached from the empty ledger
by book and cancel actions, if `waiting` is not empty then `confirmed.length = c`:
no seat stays free while somebody waits. -/
theorem C18_no_free_seat_while_waiting (c : Int) (hc : 0 ≤ c) (ops : List Op)
    (hw : ((ReservationSystem.init c).run ops).waiting ≠ []) :
    (((ReservationSystem.init c).run ops).confirmed.length : Int) = c := by
  rcases le_or_lt c INT_MAX with hmax | hbig
  · obtain ⟨_, hlen, hwait⟩ := ReservationSystem.run_seatInv c hmax ops
    have h := hwait hw
    omega
  · have key := ReservationSystem.run_induction
      (fun s => s.TOTAL_SEATS = c ∧ s.waiting = []) (ReservationSystem.init c) ⟨rfl, rfl⟩
      (fun s op h => ReservationSystem.step_no_waiting c hbig s op h) ops
    exact absurd key.2 hw

/-- Witness of C18: at capacity 1, after two bookings the second passenger waits and
one seat is taken. -/
theorem C18_no_free_seat_while_waiting_witness :
    (((ReservationSystem.init 1).run
      [Op.book ['A'] 30 ['F'] ['x'], Op.book ['B'] 25 ['M'] ['y']]).confirmed.length : Int) = 1 :=
  C18_no_free_seat_while_waiting 1 (by decide)
    [Op.book ['A'] 30 ['F'] ['x'], Op.book ['B'] 25 ['M'] ['y']] (by decide)

/-- C19: in every state reached from the empty ledger by book and cancel actions,
the ticket numbers of `confirmed ++ waiting` are strictly increasing: `confirmed`
is in ascending ticket order, `waiting` is in ascending ticket order, and every
confirmed ticket is smaller than every waiting ticket. -/
theorem C19_tickets_ascending (c : Int) (ops : List Op) :
    ((((ReservationSystem.init c).run ops).confirmed ++
        ((ReservationSystem.init c).run ops).waiting).map Passenger.ticketNo).Pairwise
        (fun a b => a < b) ∧
      (((ReservationSystem.init c).run ops).confirmed.map Passenger.ticketNo).Pairwise
        (fun a b => a < b) ∧
      (((ReservationSystem.init c).run ops).waiting.map Passenger.ticketNo).Pairwise
        (fun a b => a < b) ∧
      (∀ p ∈ ((ReservationSystem.init c).run ops).confirmed,
        ∀ q ∈ ((ReservationSystem.init c).run ops).waiting, p.ticketNo < q.ticketNo) := by
  have h : ((((ReservationSystem.init c).run ops).confirmed ++
        ((ReservationSystem.init c).run ops).waiting).map Passenger.ticketNo).Pairwise
        (fun a b => a < b) := (ReservationSystem.run_orderInv c ops).1
  refine ⟨h, ?_, ?_, ?_⟩
  · rw [List.map_append, List.pairwise_append] at h
    exact h.1
  · rw [List.map_append, List.pairwise_append] at h
    exact h.2.1
  · rw [List.map_append, List.pairwise_append] at h
    intro p hp q hq
    exact h.2.2 _ (List.mem_map_of_mem _ hp) _ (List.mem_map_of_mem _ hq)
